import Mathlib

/-!
# The inode layer of the haos file system (`filesys/inode.c`)

A shallow embedding of `filesys/inode.c`: the on-disk inode record, the
byte-to-sector resolver, creation, the list of open inodes, reclamation on
close, and the read and write paths with file growth.

Conventions of the embedding.

* `off_t` and `int` values are integers (`Int`).  The two sums the source
  makes of caller-supplied values, `size + 511` in `bytes_to_sectors` and
  `offset + size` in the growth step, wrap to 32 bits (`to_int32`) as the
  compiled code does; for lengths, sizes and offsets that fit `off_t` and
  are not negative no other `int` operation of the source leaves the 32-bit
  range.  `size_t` values are natural numbers and the one subtraction done
  in `size_t` wraps modulo `2 ^ 64`.
* C division and remainder truncate towards zero: `Int.tdiv`, `Int.tmod`.
* A memory region (a caller's buffer, the bounce buffer, the contents of a
  sector) is a function from a byte index to a byte.
* A `struct inode *` is `Option Nat`: `none` is `NULL`, `some p` is the
  address of a block handed out by `malloc`.  A call through the address of
  a block that is not live (a use after free) is outside the model and
  leaves the state as it is.
* An `ASSERT` that fails makes the function return `none`.
* A `while` loop that the source does not bound takes a fuel argument and
  returns `none` when the fuel is used up.  `inode_write_at` also returns
  `none` when the device does not return from the write the growth step
  makes with a null buffer (see `null_write`): in both cases the call has no
  result.
* A loop counter is a natural number.  The source declares its counters
  `int` and compares them with `size_t` bounds; the model follows the source
  while the counter stays below `2 ^ 31`.
* The two `printf` calls left in `inode_write_at` produce console output
  only and are not modelled.
-/

namespace Haos

/-! ## Collaborators that are not part of `inode.c` -/

/-- Modelled from the spec: `DISK_SECTOR_SIZE` of `devices/disk.h`, which is
not among the sources ("device exposes a fixed `sector_size`").  The value is
pinned by `struct inode_disk`, which is 512 bytes long and is asserted by
`inode_create` to be exactly one sector. -/
def DISK_SECTOR_SIZE : Int := 512

/-- Modelled from the spec: `SECTORS_PER_CLUSTER` of `filesys/fat.h`, which is
not among the sources.  `inode_create` allocates one cluster per sector
counted by `bytes_to_sectors`, so a cluster is one sector. -/
def SECTORS_PER_CLUSTER : Int := 1

/-- Modelled from the spec: the end-of-chain marker of `filesys/fat.h`
(the "terminator" returned by `next`), which is not among the sources. -/
def EOChain : Nat := 0x0FFFFFFF

/-- A sum of two `int` (or `off_t`) values as the compiled code holds it: the
value wrapped to 32 bits, two's complement. -/
def to_int32 (x : Int) : Int := (x + 2147483648) % 4294967296 - 2147483648

/-- Modelled from the spec: `DIV_ROUND_UP` of `round.h`, which is not among
the sources (`ceil(length / sector_size)`, computed in C as
`(X + STEP - 1) / STEP`), for the `int` operands `bytes_to_sectors` gives
it. -/
def DIV_ROUND_UP (x step : Int) : Int := (to_int32 (x + step - 1)).tdiv step

/-- Conversion of an `int` to `size_t` (64 bits). -/
def to_size_t (x : Int) : Nat := (x % 18446744073709551616).toNat

/-- Subtraction in `size_t`. -/
def size_t_sub (a b : Nat) : Nat := (a + 18446744073709551616 - b) % 18446744073709551616

/-- The value of `(disk_sector_t) -1`, with `disk_sector_t` 32 bits wide. -/
def minus_one : Nat := 4294967295

/-- Modelled from the spec: the state of the cluster allocator of
`filesys/fat.c`, which is not among the sources.  `fat c` is the entry of
cluster `c` in the forward-pointer table: `0` for a free cluster, `EOChain`
for the last cluster of a chain, the next cluster otherwise.  Clusters
`1 .. fat_length - 1` can be allocated; cluster `0` stands for "no cluster".
`data_start` is the sector of cluster `0`.  `created` and `puts` record the
clusters returned by `fat_create_chain` and the calls of `fat_put`, most
recent first; they are only used to count calls and influence no result. -/
structure fat_fs where
  fat : Nat → Nat
  fat_length : Nat
  data_start : Nat
  created : List Nat
  puts : List (Nat × Nat)

/-- Modelled from the spec: `next(cluster_id) -> cluster_id | terminator`
(`fat_get` of `filesys/fat.c`, not among the sources). -/
def fat_get (f : fat_fs) (clst : Nat) : Nat := f.fat clst

/-- Modelled from the spec: `fat_put` of `filesys/fat.c`, not among the
sources; `fat_put (clst, 0)` is the `free(cluster_id)` of the allocator
contract. -/
def fat_put (f : fat_fs) (clst val : Nat) : fat_fs :=
  { f with
    fat := fun c => if c = clst then val else f.fat c
    puts := (clst, val) :: f.puts }

/-- Search of the first free cluster among `c, c + 1, ..., c + n - 1`;
`0` when there is none. -/
def fat_find_free (fat : Nat → Nat) : Nat → Nat → Nat
  | 0, _ => 0
  | n + 1, c => if fat c = 0 then c else fat_find_free fat n (c + 1)

/-- Modelled from the spec:
`extend_chain(previous_cluster_or_none) -> cluster_id | failure`
(`fat_create_chain` of `filesys/fat.c`, not among the sources).  A free
cluster becomes the end of a chain; when `clst` is not `0` the new cluster is
linked after `clst`, when it is `0` a new chain starts.  The result is `0`
when no cluster is free. -/
def fat_create_chain (f : fat_fs) (clst : Nat) : Nat × fat_fs :=
  let c := fat_find_free f.fat (f.fat_length - 1) 1
  if c = 0 then (0, f)
  else
    let fat1 : Nat → Nat := fun x => if x = c then EOChain else f.fat x
    let fat2 : Nat → Nat := if clst = 0 then fat1 else fun x => if x = clst then c else fat1 x
    (c, { f with fat := fat2, created := c :: f.created })

/-- Modelled from the spec: `cluster_to_sector(cluster_id) -> sector_id`
(`filesys/fat.c`, not among the sources). -/
def cluster_to_sector (f : fat_fs) (clst : Nat) : Nat := f.data_start + clst

/-- Modelled from the spec: the block device (`devices/disk.c`, not among the
sources): the contents of every sector, "treated as always succeeding". -/
abbrev disk := Nat → Nat → Nat

/-- A region of zero bytes: the `static char zeros[DISK_SECTOR_SIZE]` of
`inode_create` and the memory set by `calloc` and `memset (.., 0, ..)`. -/
def zeros : Nat → Nat := fun _ => 0

/-- Modelled from the spec: `read_sector(device, sector_id, out_buffer)`;
the result is the contents of the sector. -/
def disk_read (d : disk) (sec_no : Nat) : Nat → Nat := d sec_no

/-- Modelled from the spec: `write_sector(device, sector_id, in_buffer)`;
the first `DISK_SECTOR_SIZE` bytes of `buffer` become the contents of the
sector. -/
def disk_write (d : disk) (sec_no : Nat) (buffer : Nat → Nat) : disk :=
  fun s => if s = sec_no then (fun j => if (j : Int) < DISK_SECTOR_SIZE then buffer j else 0) else d s

/-- Modelled from the spec: what the block device does with a write whose
buffer is the null pointer, which `devices/disk.c` (not among the sources)
decides.  `zero_filled` is the spec's reading of the call the growth step
makes ("write a zero-filled sector for it"); `no_return` is a device that
copies the sector out of the buffer it is given: with a null buffer the call
does not return. -/
inductive null_write where
  | zero_filled
  | no_return
deriving DecidableEq

/-- The call `disk_write (d, sec_no, 0)`, with the null pointer as buffer;
`none` when the call does not return. -/
def disk_write_null (dev : null_write) (d : disk) (sec_no : Nat) : Option disk :=
  match dev with
  | .zero_filled => some (disk_write d sec_no zeros)
  | .no_return => none

/-- The C library `memcpy (dst + dofs, src + sofs, n)`. -/
def memcpy (dst : Nat → Nat) (dofs : Nat) (src : Nat → Nat) (sofs n : Nat) : Nat → Nat :=
  fun j => if dofs ≤ j ∧ j < dofs + n then src (sofs + (j - dofs)) else dst j

/-- The file system globals used by the inode layer: the allocator state and
the contents of `filesys_disk`. -/
structure FS where
  fat : fat_fs
  filesys_disk : disk

/-! ## `inode.c` -/

/-- Identifies an inode. -/
def INODE_MAGIC : Nat := 0x494e4f44

/-- On-disk inode (`struct inode_disk`), without its unused padding. -/
structure inode_disk where
  start : Nat
  last : Nat
  is_dir : Bool
  length : Int
  magic : Nat
deriving DecidableEq

/-- Byte `j` of a 32-bit value stored little-endian. -/
def le32 (x j : Nat) : Nat := x / 256 ^ j % 256

/-- The 32-bit little-endian value stored at bytes `o .. o + 3` of a region. -/
def get32 (b : Nat → Nat) (o : Nat) : Nat :=
  b o % 256 + 256 * (b (o + 1) % 256) + 65536 * (b (o + 2) % 256) + 16777216 * (b (o + 3) % 256)

/-- The bytes of a `struct inode_disk` as the compiler lays it out:
`start` at 0, `last` at 4, `is_dir` at 8, `length` at 12, `magic` at 16, the
rest (padding, `bunused`, `unused`) zero as left by `calloc`. -/
def inode_disk.bytes (d : inode_disk) : Nat → Nat :=
  fun j =>
    if j < 4 then le32 d.start j
    else if j < 8 then le32 d.last (j - 4)
    else if j = 8 then (if d.is_dir then 1 else 0)
    else if 12 ≤ j ∧ j < 16 then le32 (d.length % 4294967296).toNat (j - 12)
    else if 16 ≤ j ∧ j < 20 then le32 d.magic (j - 16)
    else 0

/-- The `struct inode_disk` read from the bytes of a sector. -/
def inode_disk.of_bytes (b : Nat → Nat) : inode_disk :=
  { start := get32 b 0
    last := get32 b 4
    is_dir := b 8 % 256 != 0
    length := if get32 b 12 < 2147483648 then (get32 b 12 : Int) else (get32 b 12 : Int) - 4294967296
    magic := get32 b 16 }

/-- Returns the number of sectors to allocate for an inode SIZE bytes long. -/
def bytes_to_sectors (size : Int) : Nat := to_size_t (DIV_ROUND_UP size DISK_SECTOR_SIZE)

/-- In-memory inode (`struct inode`); the list element `elem` is represented
by membership in `State.open_inodes`. -/
structure inode where
  sector : Nat
  open_cnt : Int
  removed : Bool
  deny_write_cnt : Int
  data : inode_disk
deriving DecidableEq

/-- Returns the length, in bytes, of INODE's data. -/
def inode_length (ino : inode) : Int := ino.data.length

/-- Returns the disk sector that contains byte offset POS within INODE.
Returns -1 if INODE does not contain data for a byte at offset POS. -/
def byte_to_sector (fs : FS) (ino : inode) (pos : Int) : Nat :=
  if pos < ino.data.length then
    cluster_to_sector fs.fat
      (Nat.iterate (fat_get fs.fat) (pos.tdiv (DISK_SECTOR_SIZE * SECTORS_PER_CLUSTER)).toNat
        ino.data.start)
  else minus_one

/-- The chain-building loop of `inode_create`,
`for (int i = 1; i < sectors; i++)`, with `n` iterations left: the result is
whether every allocation succeeded, the allocator state, and the value of
`disk_inode->last`. -/
def inode_create_chain (sectors : Nat) : Nat → Nat → fat_fs → Nat → Nat → Bool × fat_fs × Nat
  | 0, _, f, _, last => (true, f, last)
  | n + 1, i, f, clst, last =>
    let r := fat_create_chain f clst
    if r.1 = 0 then (false, r.2, last)
    else inode_create_chain sectors n (i + 1) r.2 r.1 (if i = sectors - 1 then r.1 else last)

/-- The zero-filling loop of `inode_create`,
`for (int i = 0; i < sectors; i++)`, with `n` iterations left. -/
def inode_create_zero (f : fat_fs) : Nat → disk → Nat → disk
  | 0, d, _ => d
  | n + 1, d, clst2 =>
    inode_create_zero f n (disk_write d (cluster_to_sector f clst2) zeros) (fat_get f clst2)

/-- Initializes an inode with LENGTH bytes of data and writes the new inode
to sector SECTOR on the file system disk.  `calloc_ok` tells whether the
`calloc` of the record succeeds.  The result is `none` when
`ASSERT (length >= 0)` fails. -/
def inode_create (fs : FS) (sector : Nat) (length : Int) (is_dir : Bool) (calloc_ok : Bool) :
    Option (Bool × FS) :=
  let success := true
  if length < 0 then none
  else if calloc_ok = false then some (success, fs)
  else
    let sectors := bytes_to_sectors length
    let disk_inode : inode_disk :=
      { start := 0, last := 0, is_dir := is_dir, length := length, magic := INODE_MAGIC }
    if is_dir = false then
      let r := fat_create_chain fs.fat 0
      if r.1 ≠ 0 then
        let disk_inode1 := { disk_inode with start := r.1 }
        let c := inode_create_chain sectors (sectors - 1) 1 r.2 r.1 disk_inode1.last
        if c.1 = false then some (false, { fs with fat := c.2.1 })
        else
          let disk_inode2 := { disk_inode1 with last := c.2.2 }
          let d := inode_create_zero c.2.1 sectors fs.filesys_disk disk_inode2.start
          some (success, { fat := c.2.1, filesys_disk := disk_write d sector disk_inode2.bytes })
      else some (false, { fs with fat := r.2 })
    else
      some (success, { fs with filesys_disk := disk_write fs.filesys_disk sector disk_inode.bytes })

/-- The loop of `inode_read_at`.  `malloc_ok` tells whether the `malloc` of
the bounce buffer succeeds.  The result is the number of bytes read and the
caller's buffer. -/
def inode_read_loop (fs : FS) (ino : inode) (malloc_ok : Bool) :
    Nat → (Nat → Nat) → Int → Int → Int → Option (Int × (Nat → Nat))
  | 0, _, _, _, _ => none
  | fuel + 1, buffer, size, offset, bytes_read =>
    if size > 0 then
      let sector_ofs := offset.tmod DISK_SECTOR_SIZE
      let sector_idx := if ino.data.is_dir = false then byte_to_sector fs ino offset else ino.sector
      let inode_left :=
        if ino.data.is_dir = false then inode_length ino - offset else DISK_SECTOR_SIZE - offset
      let sector_left := DISK_SECTOR_SIZE - sector_ofs
      let min_left := if inode_left < sector_left then inode_left else sector_left
      let chunk_size := if size < min_left then size else min_left
      if chunk_size ≤ 0 then some (bytes_read, buffer)
      else if sector_ofs = 0 ∧ chunk_size = DISK_SECTOR_SIZE then
        inode_read_loop fs ino malloc_ok fuel
          (memcpy buffer bytes_read.toNat (disk_read fs.filesys_disk sector_idx) 0
            DISK_SECTOR_SIZE.toNat)
          (size - chunk_size) (offset + chunk_size) (bytes_read + chunk_size)
      else if malloc_ok = false then some (bytes_read, buffer)
      else
        let bounce := disk_read fs.filesys_disk sector_idx
        inode_read_loop fs ino malloc_ok fuel
          (memcpy buffer bytes_read.toNat bounce sector_ofs.toNat chunk_size.toNat)
          (size - chunk_size) (offset + chunk_size) (bytes_read + chunk_size)
    else some (bytes_read, buffer)

/-- Reads SIZE bytes from INODE into BUFFER, starting at position OFFSET.
Returns the number of bytes actually read and the buffer; `none` when the
fuel does not suffice for the loop. -/
def inode_read_at (fuel : Nat) (fs : FS) (ino : inode) (buffer : Nat → Nat) (size offset : Int)
    (malloc_ok : Bool) : Option (Int × (Nat → Nat)) :=
  inode_read_loop fs ino malloc_ok fuel buffer size offset 0

/-- The growth loop of `inode_write_at`, `for (int i = 0; i < addition; i++)`,
with `n` iterations left: every iteration extends the chain from the same
`inode->data.last` and calls `disk_write` for the new cluster's sector with
the null pointer as buffer.  The result is the value of `clst` after the loop
and the file system; `none` when the device does not return from that
write.  The source leaves `clst` uninitialised before the loop; the loop is
entered only with `addition > 0`, so the value passed for it is never
returned. -/
def inode_write_grow (dev : null_write) (last : Nat) : Nat → FS → Nat → Option (Nat × FS)
  | 0, fs, clst => some (clst, fs)
  | n + 1, fs, _ =>
    let r := fat_create_chain fs.fat last
    match disk_write_null dev fs.filesys_disk (cluster_to_sector r.2 r.1) with
    | none => none
    | some d => inode_write_grow dev last n { fat := r.2, filesys_disk := d } r.1

/-- The loop of `inode_write_at`.  `malloc_ok` tells whether the `malloc` of
the bounce buffer succeeds, `dev` what the device does with the null buffer
of the growth step.  The result is the number of bytes written, the file
system and the inode. -/
def inode_write_loop (dev : null_write) (buffer : Nat → Nat) (malloc_ok : Bool) :
    Nat → FS → inode → Int → Int → Int → Option (Int × FS × inode)
  | 0, _, _, _, _, _ => none
  | fuel + 1, fs, ino, size, offset, bytes_written =>
    if size > 0 then
      let sector_ofs := offset.tmod DISK_SECTOR_SIZE
      let sector_idx := if ino.data.is_dir = false then byte_to_sector fs ino offset else ino.sector
      let inode_left :=
        if ino.data.is_dir = false then inode_length ino - offset else DISK_SECTOR_SIZE - offset
      let sector_left := DISK_SECTOR_SIZE - sector_ofs
      let min_left := if inode_left < sector_left then inode_left else sector_left
      let chunk_size := if size < min_left then size else min_left
      if chunk_size ≤ 0 then
        let old_sectors := bytes_to_sectors (inode_length ino)
        let ino1 : inode :=
          { ino with data := { ino.data with length := to_int32 (offset + size) } }
        let addition := size_t_sub (bytes_to_sectors (inode_length ino1)) old_sectors
        if addition > 0 then
          match inode_write_grow dev ino1.data.last addition fs 0 with
          | none => none
          | some g =>
            inode_write_loop dev buffer malloc_ok fuel g.2
              { ino1 with data := { ino1.data with last := g.1 } } size offset bytes_written
        else inode_write_loop dev buffer malloc_ok fuel fs ino1 size offset bytes_written
      else if sector_ofs = 0 ∧ chunk_size = DISK_SECTOR_SIZE then
        inode_write_loop dev buffer malloc_ok fuel
          { fs with
            filesys_disk :=
              disk_write fs.filesys_disk sector_idx (fun j => buffer (bytes_written.toNat + j)) }
          ino (size - chunk_size) (offset + chunk_size) (bytes_written + chunk_size)
      else if malloc_ok = false then some (bytes_written, fs, ino)
      else
        let bounce :=
          if sector_ofs > 0 ∨ chunk_size < sector_left then disk_read fs.filesys_disk sector_idx
          else zeros
        let bounce1 := memcpy bounce sector_ofs.toNat buffer bytes_written.toNat chunk_size.toNat
        inode_write_loop dev buffer malloc_ok fuel
          { fs with filesys_disk := disk_write fs.filesys_disk sector_idx bounce1 }
          ino (size - chunk_size) (offset + chunk_size) (bytes_written + chunk_size)
    else some (bytes_written, fs, ino)

/-- Writes SIZE bytes from BUFFER into INODE, starting at OFFSET.  Returns the
number of bytes actually written, the file system and the inode; `none` when
the call has no result: the fuel does not suffice for the loop, or the device
does not return from the write of the growth step. -/
def inode_write_at (dev : null_write) (fuel : Nat) (fs : FS) (ino : inode) (buffer : Nat → Nat)
    (size offset : Int) (malloc_ok : Bool) : Option (Int × FS × inode) :=
  if ino.deny_write_cnt ≠ 0 then some (0, fs, ino)
  else inode_write_loop dev buffer malloc_ok fuel fs ino size offset 0

/-- Marks INODE to be deleted when it is closed by the last caller who has it
open (the effect of `inode->removed = true` on the structure). -/
def inode.remove (ino : inode) : inode := { ino with removed := true }

/-- The memory of the inode module: the file system, the list `open_inodes`
(every element with the address of its block, first element first) and the
next address `malloc` hands out.  An inode block is live exactly while it is
on the list: `inode_open` pushes the block it allocates and `inode_close`
frees the block it unlinks. -/
structure State where
  fs : FS
  open_inodes : List (Nat × inode)
  next_block : Nat

/-- The structure at address `p`, when the block is live. -/
def State.deref (st : State) (p : Nat) : Option inode :=
  (st.open_inodes.find? (fun e => e.1 == p)).map Prod.snd

/-- Assignment through the pointer `p`: the structure at `p` becomes `ino`. -/
def State.store (st : State) (p : Nat) (ino : inode) : State :=
  { st with open_inodes := st.open_inodes.map (fun e => if e.1 = p then (p, ino) else e) }

/-- Initializes the inode module. -/
def inode_init (st : State) : State := { st with open_inodes := [] }

/-- Reopens and returns INODE. -/
def inode_reopen (st : State) (inode : Option Nat) : Option Nat × State :=
  match inode with
  | none => (none, st)
  | some p =>
    match st.deref p with
    | none => (some p, st)
    | some ino => (some p, st.store p { ino with open_cnt := ino.open_cnt + 1 })

/-- Reads an inode from SECTOR and returns a `struct inode` that contains it.
Returns a null pointer if memory allocation fails (`malloc_ok = false`). -/
def inode_open (st : State) (sector : Nat) (malloc_ok : Bool) : Option Nat × State :=
  match st.open_inodes.find? (fun e => e.2.sector == sector) with
  | some e => inode_reopen st (some e.1)
  | none =>
    if malloc_ok = false then (none, st)
    else
      let data := inode_disk.of_bytes (disk_read st.fs.filesys_disk sector)
      let ino : inode :=
        { sector := sector, open_cnt := 1, deny_write_cnt := 0, removed := false
          data := if sector = 1 then { data with is_dir := true } else data }
      (some st.next_block,
        { st with
          open_inodes := (st.next_block, ino) :: st.open_inodes
          next_block := st.next_block + 1 })

/-- Returns INODE's inode number. -/
def inode_get_inumber (ino : inode) : Nat := ino.sector

/-- The chain-freeing loop of `inode_close`,
`for (int i = 0; i < inode->data.length; i++)`, with `n` iterations left. -/
def inode_close_walk : Nat → fat_fs → Nat → fat_fs
  | 0, f, _ => f
  | n + 1, f, clst => inode_close_walk n (fat_put f clst 0) (fat_get (fat_put f clst 0) clst)

/-- Closes INODE.  If this was the last reference to INODE, frees its memory.
If INODE was also a removed inode, frees its blocks. -/
def inode_close (st : State) (inode : Option Nat) : State :=
  match inode with
  | none => st
  | some p =>
    match st.deref p with
    | none => st
    | some ino =>
      if ino.open_cnt - 1 = 0 then
        let st1 := { st with open_inodes := st.open_inodes.filter (fun e => e.1 != p) }
        if ino.removed then
          let f1 := fat_put st1.fs.fat ino.sector 0
          let f2 := inode_close_walk ino.data.length.toNat f1 ino.data.start
          { st1 with fs := { st1.fs with fat := f2 } }
        else st1
      else st.store p { ino with open_cnt := ino.open_cnt - 1 }

/-- Marks INODE to be deleted when it is closed by the last caller who has it
open.  The result is `none` when `ASSERT (inode != NULL)` fails. -/
def inode_remove (st : State) (inode : Option Nat) : Option State :=
  match inode with
  | none => none
  | some p =>
    match st.deref p with
    | none => some st
    | some ino => some (st.store p ino.remove)

/-- Disables writes to INODE, a non-null pointer.  The result is `none` when
`ASSERT (inode->deny_write_cnt <= inode->open_cnt)` fails. -/
def inode_deny_write (st : State) (p : Nat) : Option State :=
  match st.deref p with
  | none => some st
  | some ino =>
    if ino.deny_write_cnt + 1 ≤ ino.open_cnt then
      some (st.store p { ino with deny_write_cnt := ino.deny_write_cnt + 1 })
    else none

/-- Re-enables writes to INODE, a non-null pointer.  The result is `none`
when `ASSERT (inode->deny_write_cnt > 0)` or
`ASSERT (inode->deny_write_cnt <= inode->open_cnt)` fails. -/
def inode_allow_write (st : State) (p : Nat) : Option State :=
  match st.deref p with
  | none => some st
  | some ino =>
    if ino.deny_write_cnt > 0 ∧ ino.deny_write_cnt ≤ ino.open_cnt then
      some (st.store p { ino with deny_write_cnt := ino.deny_write_cnt - 1 })
    else none

/-- Whether INODE is a directory; a removed inode is reported as not being
one. -/
def inode_is_dir (ino : inode) : Bool :=
  if ino.removed then false else ino.data.is_dir

/-! ## Sequences of calls on the list of open inodes -/

/-- A call of `inode_open`, `inode_reopen` or `inode_close` with its
arguments. -/
inductive Call where
  | do_open (sector : Nat) (malloc_ok : Bool)
  | do_reopen (inode : Option Nat)
  | do_close (inode : Option Nat)

/-- The state after a call. -/
def Call.apply (st : State) : Call → State
  | .do_open sector malloc_ok => (inode_open st sector malloc_ok).2
  | .do_reopen inode => (inode_reopen st inode).2
  | .do_close inode => inode_close st inode

/-- A call is admissible in a state when the pointer it passes is null or the
address of a live block: a handle currently on the list. -/
def Call.admissible (st : State) : Call → Prop
  | .do_open _ _ => True
  | .do_reopen none => True
  | .do_reopen (some p) => st.deref p ≠ none
  | .do_close none => True
  | .do_close (some p) => st.deref p ≠ none

/-- The state after a sequence of calls. -/
def run (st : State) : List Call → State
  | [] => st
  | c :: cs => run (c.apply st) cs

/-- Every call of the sequence is admissible in the state it is made in. -/
def admissible (st : State) : List Call → Prop
  | [] => True
  | c :: cs => c.admissible st ∧ admissible (c.apply st) cs

/-- What a call made in state `st` contributes to the count of sector `s`:
`1` for an `inode_open` of `s` that returns a handle and for an
`inode_reopen` of a handle of `s`, `-1` for an `inode_close` of a handle of
`s`, `0` otherwise. -/
def Call.delta (st : State) (s : Nat) : Call → Int
  | .do_open sector malloc_ok =>
    if sector = s ∧ (inode_open st sector malloc_ok).1 ≠ none then 1 else 0
  | .do_reopen handle => if (handle.bind st.deref).map inode.sector = some s then 1 else 0
  | .do_close handle => if (handle.bind st.deref).map inode.sector = some s then -1 else 0

/-- The number of opens and reopens of sector `s` minus the number of closes
of sector `s` in a sequence of calls made from state `st`. -/
def balance (s : Nat) (st : State) : List Call → Int
  | [] => 0
  | c :: cs => c.delta st s + balance s (c.apply st) cs

/-- Invariant of the list of open inodes: the addresses are distinct, the
sectors are distinct, every address was handed out before `nb`, and every
`open_cnt` is at least 1. -/
def open_inodes_wf (l : List (Nat × inode)) (nb : Nat) : Prop :=
  (l.map Prod.fst).Nodup ∧ (l.map (fun e => e.2.sector)).Nodup ∧
    (∀ e ∈ l, e.1 < nb) ∧ (∀ e ∈ l, 1 ≤ e.2.open_cnt)

/-- The list of open inodes agrees with the counts `f`: it is well formed,
the `open_cnt` of every handle is the count of its sector, and the count of
a sector without a handle is 0. -/
def counted (l : List (Nat × inode)) (nb : Nat) (f : Nat → Int) : Prop :=
  open_inodes_wf l nb ∧ (∀ e ∈ l, e.2.open_cnt = f e.2.sector) ∧
    (∀ s, (∀ e ∈ l, e.2.sector ≠ s) → f s = 0)

/-! ## Concrete inputs -/

/-- A formatted file system of 16 clusters with cluster 1 (the root directory)
and cluster 2 in use, every other cluster free, cluster `c` stored in sector
`c`, and every sector of the disk zero. -/
def fresh_fs : FS :=
  { fat :=
      { fat := fun c => if c = 1 ∨ c = 2 then EOChain else 0
        fat_length := 16
        data_start := 0
        created := []
        puts := [] }
    filesys_disk := fun _ _ => 0 }

/-- An inode module with no open inode on the file system `fs`. -/
def fresh_state (fs : FS) : State := { fs := fs, open_inodes := [], next_block := 0 }

/-- A caller's buffer whose byte `i` is `i / 512 + 1`: the first 512 bytes are
1, the next 512 bytes are 2, and so on. -/
def pattern : Nat → Nat := fun i => i / 512 + 1

/-- An open regular file of 512 bytes whose writes are denied once. -/
def denied_inode : inode :=
  { sector := 2, open_cnt := 1, removed := false, deny_write_cnt := 1
    data := { start := 3, last := 0, is_dir := false, length := 512, magic := INODE_MAGIC } }

/-- The calls `inode_create (sector, length, false)`, `inode_open (sector)`
on an inode module with no open inode, then `inode_write_at` of `size` bytes
of `buffer` at `offset` and `inode_read_at` of `size` bytes at `offset` into
a zeroed buffer, with no memory allocation failing, on a device that treats
a null buffer as `dev` says.  The result is what the write and the read
return. -/
def create_open_write_read (dev : null_write) (fuel : Nat) (fs : FS) (sector : Nat)
    (length : Int)
    (buffer : Nat → Nat) (size offset : Int) :
    Option ((Int × FS × inode) × (Int × (Nat → Nat))) :=
  (inode_create fs sector length false true).bind fun c =>
    let o := inode_open (fresh_state c.2) sector true
    (o.1.bind o.2.deref).bind fun ino =>
      (inode_write_at dev fuel o.2.fs ino buffer size offset true).bind fun w =>
        (inode_read_at fuel w.2.1 w.2.2 zeros size offset true).map fun rd => (w, rd)

/-- The calls `inode_create (sector, length, false)`, `inode_open (sector)`
on an inode module with no open inode and `inode_remove` of the handle, with
no memory allocation failing.  The result is the handle and the state before
the handle is closed. -/
def create_open_remove (fs : FS) (sector : Nat) (length : Int) : Option (Option Nat × State) :=
  (inode_create fs sector length false true).bind fun c =>
    let o := inode_open (fresh_state c.2) sector true
    (inode_remove o.2 o.1).map fun st => (o.1, st)

/-- The state reached by `create_open_remove fresh_fs 2 1024`: the file of
1024 bytes with its record in sector 2 is open once and marked removed. -/
def removed_file_state : State :=
  ((create_open_remove fresh_fs 2 1024).getD (none, fresh_state fresh_fs)).2

/-- The handle of `removed_file_state`. -/
def removed_file_inode : inode :=
  { sector := 2, open_cnt := 1, removed := true, deny_write_cnt := 0
    data := { start := 3, last := 4, is_dir := false, length := 1024, magic := INODE_MAGIC } }

/-- A handle opened twice and marked removed. -/
def twice_open_inode : inode :=
  { sector := 2, open_cnt := 2, removed := true, deny_write_cnt := 0
    data := { start := 3, last := 4, is_dir := false, length := 1024, magic := INODE_MAGIC } }

/-- A sequence of calls: sector 2 is opened (handle 0), sector 5 is opened
(handle 1), sector 2 is opened again, handle 0 is reopened, handle 1 is
closed, handle 0 is closed. -/
def example_calls : List Call :=
  [.do_open 2 true, .do_open 5 true, .do_open 2 true, .do_reopen (some 0), .do_close (some 1),
    .do_close (some 0)]

/-- A directory handle of the root directory (sector 1), open once, writes
allowed. -/
def dir_inode : inode :=
  { sector := 1, open_cnt := 1, removed := false, deny_write_cnt := 0
    data := { start := 0, last := 0, is_dir := true, length := 0, magic := INODE_MAGIC } }

/-- The file system `fresh_fs` with a table of 5 clusters only: once clusters
3 and 4 are allocated no cluster is free. -/
def small_fs : FS :=
  { fresh_fs with fat := { fresh_fs.fat with fat_length := 5 } }

/-- The calls `inode_create (sector, length, false)` and `inode_open (sector)`
on an inode module with no open inode, with no memory allocation failing.
The result is the handle and the state. -/
def create_open (fs : FS) (sector : Nat) (length : Int) : Option (Option Nat × State) :=
  (inode_create fs sector length false true).map fun c =>
    inode_open (fresh_state c.2) sector true

/-- The calls `inode_create (sector, length, false)`, `inode_open (sector)`
on an inode module with no open inode and `inode_write_at` of `size` bytes of
`buffer` at `offset` through the handle, with no memory allocation failing,
on a device that treats a null buffer as `dev` says.  The result is what the
write returns, the handle, and the state with the file system and the inode
as the write left them. -/
def create_open_write (dev : null_write) (fuel : Nat) (fs : FS) (sector : Nat) (length : Int)
    (buffer : Nat → Nat) (size offset : Int) : Option (Int × Nat × State) :=
  (create_open fs sector length).bind fun o =>
    o.1.bind fun p =>
      (o.2.deref p).bind fun ino =>
        (inode_write_at dev fuel o.2.fs ino buffer size offset true).map fun w =>
          (w.1, p, ({ o.2 with fs := w.2.1 } : State).store p w.2.2)

/-- The calls of `create_open_write`, then `inode_close` of the handle and
`inode_open` of the same sector.  The result is the inode cached by the
handle before the close and the state after the second open. -/
def create_open_write_close_open (dev : null_write) (fuel : Nat) (fs : FS) (sector : Nat)
    (length : Int) (buffer : Nat → Nat) (size offset : Int) :
    Option (Option inode × Option Nat × State) :=
  (create_open_write dev fuel fs sector length buffer size offset).map fun w =>
    (w.2.2.deref w.2.1, inode_open (inode_close w.2.2 (some w.2.1)) sector true)

/-! ## Sequences of calls with the write-deny guard -/

/-- A call of `inode_open`, `inode_reopen`, `inode_close`, `inode_deny_write`
or `inode_allow_write` with its arguments. -/
inductive GuardCall where
  | call (c : Call)
  | do_deny_write (p : Nat)
  | do_allow_write (p : Nat)

/-- The state after a call; `none` when an assertion of `inode_deny_write` or
`inode_allow_write` fails. -/
def GuardCall.apply (st : State) : GuardCall → Option State
  | .call c => some (c.apply st)
  | .do_deny_write p => inode_deny_write st p
  | .do_allow_write p => inode_allow_write st p

/-- The state after a sequence of calls; `none` when an assertion fails on
the way. -/
def guard_run (st : State) : List GuardCall → Option State
  | [] => some st
  | c :: cs => (c.apply st).bind fun st1 => guard_run st1 cs

/-- The protocol stated with `inode_allow_write`: an opener who denied writes
allows them again before closing, so an `inode_close` finds
`deny_write_cnt < open_cnt` on the handle it closes. -/
def GuardCall.released (st : State) : GuardCall → Prop
  | .call (.do_close (some p)) =>
    match st.deref p with
    | some ino => ino.deny_write_cnt < ino.open_cnt
    | none => True
  | _ => True

/-- Every `inode_close` of the sequence follows the protocol. -/
def guard_released (st : State) : List GuardCall → Prop
  | [] => True
  | c :: cs =>
    c.released st ∧
      match c.apply st with
      | some st1 => guard_released st1 cs
      | none => True

/-- Every handle on the list has `0 <= deny_write_cnt <= open_cnt`. -/
def guarded (l : List (Nat × inode)) : Prop :=
  ∀ e ∈ l, 0 ≤ e.2.deny_write_cnt ∧ e.2.deny_write_cnt ≤ e.2.open_cnt

/-- Sector 2 is opened (handle 0) and reopened, writes are denied twice, and
the handle is closed once. -/
def deny_then_close_calls : List GuardCall :=
  [.call (.do_open 2 true), .call (.do_reopen (some 0)), .do_deny_write 0, .do_deny_write 0,
    .call (.do_close (some 0))]

/-- Sector 2 is opened (handle 0) and reopened, writes are denied and allowed
again, and the handle is closed once. -/
def deny_allow_close_calls : List GuardCall :=
  [.call (.do_open 2 true), .call (.do_reopen (some 0)), .do_deny_write 0, .do_allow_write 0,
    .call (.do_close (some 0))]

/-! ## The chunk of one iteration and the byte-by-byte read -/

/-- The value of `chunk_size` in one iteration of the loops of
`inode_read_at` and `inode_write_at`: the least of the bytes left to
transfer, the bytes left in the inode and the bytes left in the sector. -/
def chunk_size (ino : inode) (size offset : Int) : Int :=
  let sector_ofs := offset.tmod DISK_SECTOR_SIZE
  let inode_left :=
    if ino.data.is_dir = false then inode_length ino - offset else DISK_SECTOR_SIZE - offset
  let sector_left := DISK_SECTOR_SIZE - sector_ofs
  let min_left := if inode_left < sector_left then inode_left else sector_left
  if size < min_left then size else min_left

/-- The value of `sector_idx` in one iteration of the loops of
`inode_read_at` and `inode_write_at`. -/
def sector_idx (fs : FS) (ino : inode) (offset : Int) : Nat :=
  if ino.data.is_dir = false then byte_to_sector fs ino offset else ino.sector

/-- Byte by byte read through the resolver, as the spec words the read path:
byte `i` of a read that starts at `offset` is byte `(offset + i) mod
sector_size` of the disk sector `byte_to_sector (offset + i)`. -/
def read_byte (fs : FS) (ino : inode) (offset : Int) (i : Nat) : Nat :=
  disk_read fs.filesys_disk (byte_to_sector fs ino (offset + i))
    ((offset + i) % DISK_SECTOR_SIZE).toNat

/-- The handle of a regular file of 1000 bytes with the chain 3 → 4, opened
once. -/
def tail_inode : inode :=
  { sector := 2, open_cnt := 1, removed := false, deny_write_cnt := 0
    data := { start := 3, last := 4, is_dir := false, length := 1000, magic := INODE_MAGIC } }

/-- The file system after `inode_create (2, 1024, false)` on `fresh_fs`. -/
def file_fs : FS := ((inode_create fresh_fs 2 1024 false true).getD (false, fresh_fs)).2

/-- C1: a write through a handle whose `deny_write_cnt` is greater than 0
returns 0 and leaves the file system (disk and FAT) and the handle as they
were, whatever the buffer, size and offset, and whatever the device does with
a null buffer. -/
theorem inode_write_at_denied (dev : null_write) (fuel : Nat) (fs : FS) (ino : inode)
    (buffer : Nat → Nat) (size offset : Int) (malloc_ok : Bool) (h : ino.deny_write_cnt > 0) :
    inode_write_at dev fuel fs ino buffer size offset malloc_ok = some (0, fs, ino) := by
  have hne : ino.deny_write_cnt ≠ 0 := by omega
  simp [inode_write_at, hne]

/-- Witness of C1: a write of 5 bytes through `denied_inode`. -/
theorem inode_write_at_denied_witness :
    denied_inode.deny_write_cnt > 0 ∧
      inode_write_at .no_return 0 fresh_fs denied_inode pattern 5 0 true =
        some (0, fresh_fs, denied_inode) :=
  ⟨by decide,
    inode_write_at_denied .no_return 0 fresh_fs denied_inode pattern 5 0 true (by decide)⟩

/-- C2 (code at the failing input): a regular file created with 512 bytes is
opened and 1536 bytes of `pattern` are written at offset 512.  On a device
that takes the null buffer of the growth step for a sector of zeros, the
write reports 1536 bytes and the length becomes 2048, but the chain from
`start` still has one cluster (`inode_create` left `last` at 0, so the growth
step started new chains), the resolver sends offset 512 to the sector of the
end-of-chain marker and offsets 1024 and 1536 to one and the same sector,
and the read of the same range returns 3 where 2 was written (byte 512 of
the buffer).  On a device that does not return from a write with a null
buffer the write has no result, whatever the fuel, so nothing is read
back. -/
theorem write_then_read_after_growth :
    (∃ w rd,
      create_open_write_read .zero_filled 10 fresh_fs 2 512 pattern 1536 512 = some (w, rd) ∧
      w.1 = 1536 ∧ w.2.2.data.length = 2048 ∧
      fat_get w.2.1.fat w.2.2.data.start = EOChain ∧
      byte_to_sector w.2.1 w.2.2 512 = cluster_to_sector w.2.1.fat EOChain ∧
      byte_to_sector w.2.1 w.2.2 1024 = byte_to_sector w.2.1 w.2.2 1536 ∧
      rd.1 = 1536 ∧ pattern 512 = 2 ∧ rd.2 512 = 3) ∧
    ∀ fuel, create_open_write_read .no_return fuel fresh_fs 2 512 pattern 1536 512 = none := by
  refine ⟨⟨_, _, rfl, ?_⟩, fun fuel => ?_⟩
  · decide
  · cases fuel <;> rfl

/-- C3 (code at the failing input): `inode_create` of a regular file of
length 0 succeeds and allocates one cluster (cluster 3), although
`bytes_to_sectors 0` is 0. -/
theorem inode_create_empty_allocates :
    bytes_to_sectors 0 = 0 ∧
      (inode_create fresh_fs 2 0 false true).map (fun r => (r.1, r.2.fat.created)) =
        some (true, [3]) := by
  decide

/-- C4 (code at the failing input): `inode_create` of a regular file of 512
bytes allocates the one-cluster chain made of cluster 3 and writes a record
whose `start` is 3 and whose `last` is 0. -/
theorem inode_create_one_cluster_last :
    (inode_create fresh_fs 2 512 false true).map
        (fun r =>
          (r.1, r.2.fat.created, fat_get r.2.fat 3,
            (inode_disk.of_bytes (disk_read r.2.filesys_disk 2)).start,
            (inode_disk.of_bytes (disk_read r.2.filesys_disk 2)).last)) =
      some (true, [3], EOChain, 3, 0) := by
  decide

/-- C5 (code at the failing input): when `calloc` fails, `inode_create`
returns true and the file system is what it was: no record is written. -/
theorem inode_create_calloc_failure :
    inode_create fresh_fs 2 512 false false = some (true, fresh_fs) := by
  rfl

/-- One step of the chain-freeing walk: the entry of `clst` has just been
cleared, so the link read from it is 0. -/
theorem inode_close_walk_succ (n : Nat) (f : fat_fs) (clst : Nat) :
    inode_close_walk (n + 1) f clst = inode_close_walk n (fat_put f clst 0) 0 := by
  simp [inode_close_walk, fat_get, fat_put]

/-- The chain-freeing walk from cluster 0 only touches the entry of cluster
0. -/
theorem inode_close_walk_zero_fat (n : Nat) (f : fat_fs) (x : Nat) (hx : x ≠ 0) :
    (inode_close_walk n f 0).fat x = f.fat x := by
  induction n generalizing f with
  | zero => rfl
  | succ n ih =>
    rw [inode_close_walk_succ, ih]
    simp [fat_put, hx]

/-- The chain-freeing walk leaves the entry of every cluster other than its
first cluster and cluster 0 as it was. -/
theorem inode_close_walk_fat (n : Nat) (f : fat_fs) (clst x : Nat) (hx : x ≠ 0)
    (hc : x ≠ clst) : (inode_close_walk n f clst).fat x = f.fat x := by
  cases n with
  | zero => rfl
  | succ n =>
    rw [inode_close_walk_succ, inode_close_walk_zero_fat _ _ _ hx]
    simp [fat_put, hc]

/-- The chain-freeing walk of at least one step clears the entry of its first
cluster. -/
theorem inode_close_walk_first (n : Nat) (f : fat_fs) (clst x : Nat) (hn : 0 < n) (hx : x ≠ 0)
    (hc : x = clst) : (inode_close_walk n f clst).fat x = 0 := by
  obtain ⟨m, rfl⟩ : ∃ m, n = m + 1 := ⟨n - 1, by omega⟩
  rw [inode_close_walk_succ, inode_close_walk_zero_fat _ _ _ hx]
  simp [fat_put, hc]

/-- The calls of `fat_put` made by the chain-freeing walk from cluster 0. -/
theorem inode_close_walk_zero_puts (n : Nat) (f : fat_fs) :
    (inode_close_walk n f 0).puts = List.replicate n (0, 0) ++ f.puts := by
  induction n generalizing f with
  | zero => rfl
  | succ n ih =>
    rw [inode_close_walk_succ, ih]
    simp [fat_put, List.replicate_succ', List.append_assoc]

/-- The calls of `fat_put` made by a chain-freeing walk of at least one step:
one on the first cluster, then one on cluster 0 for every further step. -/
theorem inode_close_walk_puts (n : Nat) (f : fat_fs) (clst : Nat) (hn : 0 < n) :
    (inode_close_walk n f clst).puts = List.replicate (n - 1) (0, 0) ++ (clst, 0) :: f.puts := by
  obtain ⟨m, rfl⟩ : ∃ m, n = m + 1 := ⟨n - 1, by omega⟩
  rw [inode_close_walk_succ, inode_close_walk_zero_puts]
  simp [fat_put]

/-- The allocator state after the close of the last opener of a removed
inode: the entry of the record's cluster is cleared, then the chain-freeing
walk runs for `length` steps from `start`. -/
theorem inode_close_last_removed_fat (st : State) (p : Nat) (ino : inode)
    (h : st.deref p = some ino) (h1 : ino.open_cnt = 1) (hr : ino.removed = true) :
    (inode_close st (some p)).fs.fat =
      inode_close_walk ino.data.length.toNat (fat_put st.fs.fat ino.sector 0) ino.data.start := by
  simp [inode_close, h, h1, hr]

/-- The close of the last opener unlinks the handle from `open_inodes`. -/
theorem inode_close_last_open_inodes (st : State) (p : Nat) (ino : inode)
    (h : st.deref p = some ino) (h1 : ino.open_cnt = 1) :
    (inode_close st (some p)).open_inodes = st.open_inodes.filter (fun e => e.1 != p) := by
  by_cases hr : ino.removed = true <;> simp [inode_close, h, h1, hr]

/-- C6 (code at the failing input): a regular file of 1024 bytes (record in
sector 2, chain 3 → 4) is created, opened and removed, which leaves one
handle with `open_cnt = 1` marked removed.  Its close unlinks the handle and
clears the entries of clusters 2 and 3, but cluster 4, the second cluster of
the chain, keeps its entry `EOChain`. -/
theorem inode_close_removed_two_clusters :
    create_open_remove fresh_fs 2 1024 = some (some 0, removed_file_state) ∧
      removed_file_state.open_inodes = [(0, removed_file_inode)] ∧
      fat_get removed_file_state.fs.fat 3 = 4 ∧
      fat_get removed_file_state.fs.fat 4 = EOChain ∧
      (inode_close removed_file_state (some 0)).open_inodes = [] ∧
      fat_get (inode_close removed_file_state (some 0)).fs.fat 2 = 0 ∧
      fat_get (inode_close removed_file_state (some 0)).fs.fat 3 = 0 ∧
      fat_get (inode_close removed_file_state (some 0)).fs.fat 4 = EOChain := by
  have hd : removed_file_state.deref 0 = some removed_file_inode := by decide
  have hf := inode_close_last_removed_fat removed_file_state 0 removed_file_inode hd (by decide)
    (by decide)
  have ho := inode_close_last_open_inodes removed_file_state 0 removed_file_inode hd (by decide)
  refine ⟨rfl, by decide, by decide, by decide, ?_, ?_, ?_, ?_⟩
  · rw [ho]
    decide
  · rw [fat_get, hf, inode_close_walk_fat _ _ _ _ (by decide) (by decide)]
    decide
  · rw [fat_get, hf]
    exact inode_close_walk_first _ _ _ 3 (by decide) (by decide) (by decide)
  · rw [fat_get, hf, inode_close_walk_fat _ _ _ _ (by decide) (by decide)]
    decide

/-- C7 (code at the failing input): for the removed file of 1024 bytes, whose
chain has `bytes_to_sectors 1024 = 2` clusters, the close calls `fat_put`
1025 times: once for the record (cluster 2) and 1024 times in the
chain-freeing walk, one step per byte of `length`; the first step is on
cluster 3 and the other 1023 are on cluster 0. -/
theorem inode_close_walk_steps :
    create_open_remove fresh_fs 2 1024 = some (some 0, removed_file_state) ∧
      bytes_to_sectors 1024 = 2 ∧ removed_file_state.fs.fat.puts = [] ∧
      (inode_close removed_file_state (some 0)).fs.fat.puts =
        List.replicate 1023 (0, 0) ++ [(3, 0), (2, 0)] ∧
      (inode_close removed_file_state (some 0)).fs.fat.puts.length = 1025 := by
  have hd : removed_file_state.deref 0 = some removed_file_inode := by decide
  have hf := inode_close_last_removed_fat removed_file_state 0 removed_file_inode hd (by decide)
    (by decide)
  have h2 : (fat_put removed_file_state.fs.fat removed_file_inode.sector 0).puts = [(2, 0)] := by
    decide
  have h : (inode_close removed_file_state (some 0)).fs.fat.puts =
      List.replicate 1023 (0, 0) ++ [(3, 0), (2, 0)] := by
    rw [hf, inode_close_walk_puts _ _ _ (by decide), h2]
    rfl
  refine ⟨rfl, by decide, by decide, h, ?_⟩
  rw [h, List.length_append, List.length_replicate]
  rfl


/-- The structure at `p` on a list that starts with the element `e`. -/
theorem deref_cons (fs : FS) (e : Nat × inode) (l : List (Nat × inode)) (nb p : Nat) :
    (State.mk fs (e :: l) nb).deref p =
      if e.1 = p then some e.2 else (State.mk fs l nb).deref p := by
  simp only [State.deref, List.find?_cons]
  by_cases he : e.1 = p
  · simp [he]
  · have he1 : (e.1 == p) = false := by simpa using he
    simp [he, he1]

/-- An assignment through `p` on a list that starts with the element `e`. -/
theorem store_cons (fs : FS) (e : Nat × inode) (l : List (Nat × inode)) (nb p : Nat)
    (ino1 : inode) :
    (State.mk fs (e :: l) nb).store p ino1 =
      State.mk fs ((if e.1 = p then (p, ino1) else e) :: ((State.mk fs l nb).store p ino1).open_inodes)
        nb := by
  simp [State.store]

/-- After an assignment through `p`, the structure at a live `p` is the one
assigned. -/
theorem deref_store_same (st : State) (p : Nat) (ino ino1 : inode) (h : st.deref p = some ino) :
    (st.store p ino1).deref p = some ino1 := by
  obtain ⟨fs, l, nb⟩ := st
  induction l with
  | nil => simp [State.deref] at h
  | cons e l ih =>
    rw [store_cons, deref_cons]
    rw [deref_cons] at h
    by_cases he : e.1 = p
    · simp [he]
    · simp only [he, if_false] at h ⊢
      have := ih h
      simpa [State.store] using this

/-- An assignment through `p` leaves the structure at every other address as
it was. -/
theorem deref_store_other (st : State) (p q : Nat) (ino1 : inode) (hq : q ≠ p) :
    (st.store p ino1).deref q = st.deref q := by
  obtain ⟨fs, l, nb⟩ := st
  induction l with
  | nil => simp [State.deref, State.store]
  | cons e l ih =>
    rw [store_cons, deref_cons, deref_cons]
    have ih1 : (State.mk fs ((State.mk fs l nb).store p ino1).open_inodes nb).deref q =
        (State.mk fs l nb).deref q := by simpa [State.store] using ih
    by_cases he : e.1 = p
    · have he1 : ¬ e.1 = q := by omega
      have he2 : ¬ p = q := by omega
      simp [he, he1, he2, ih1]
    · simp [he, ih1]

/-- An assignment through `p` keeps the addresses on the list, in order. -/
theorem store_keys (st : State) (p : Nat) (ino1 : inode) :
    (st.store p ino1).open_inodes.map Prod.fst = st.open_inodes.map Prod.fst := by
  simp only [State.store, List.map_map]
  apply List.map_congr_left
  intro e _
  by_cases he : e.1 = p <;> simp [he]

/-- A live block is an element of the list. -/
theorem deref_mem (st : State) (p : Nat) (ino : inode) (h : st.deref p = some ino) :
    (p, ino) ∈ st.open_inodes := by
  obtain ⟨fs, l, nb⟩ := st
  induction l with
  | nil => simp [State.deref] at h
  | cons e l ih =>
    rw [deref_cons] at h
    by_cases he : e.1 = p
    · simp only [he, if_true, Option.some.injEq] at h
      have : e = (p, ino) := by rw [← he, ← h]
      simp [this]
    · simp only [he, if_false] at h
      exact List.mem_cons_of_mem _ (ih h)

/-- Of two assignments through the same pointer the second one counts. -/
theorem store_store (st : State) (p : Nat) (a b : inode) :
    (st.store p a).store p b = st.store p b := by
  obtain ⟨fs, l, nb⟩ := st
  simp only [State.store, List.map_map, State.mk.injEq, true_and, and_true]
  apply List.map_congr_left
  intro e _
  by_cases he : e.1 = p <;> simp [he]

/-- C8: `inode_remove` of a live handle changes only the `removed` flag of
that handle: the file system (disk and FAT), the list of addresses, every
other handle and the other fields of the handle (`sector`, `open_cnt`,
`deny_write_cnt`, the cached record) are unchanged, and a second
`inode_remove` changes nothing more.  An `inode_close` that leaves `open_cnt`
greater than 0 changes neither the file system nor the list of addresses nor
any other handle; the handle stays on the list with `open_cnt` one less,
whether or not it is marked removed. -/
theorem inode_remove_close_frame (st : State) (p : Nat) (ino : inode)
    (h : st.deref p = some ino) :
    (∃ st1, inode_remove st (some p) = some st1 ∧
      st1.fs = st.fs ∧ st1.next_block = st.next_block ∧
      st1.open_inodes.map Prod.fst = st.open_inodes.map Prod.fst ∧
      st1.deref p = some { ino with removed := true } ∧
      (∀ q, q ≠ p → st1.deref q = st.deref q) ∧
      inode_remove st1 (some p) = some st1) ∧
    (0 < ino.open_cnt - 1 →
      (inode_close st (some p)).fs = st.fs ∧
      (inode_close st (some p)).next_block = st.next_block ∧
      (inode_close st (some p)).open_inodes.map Prod.fst = st.open_inodes.map Prod.fst ∧
      (inode_close st (some p)).deref p = some { ino with open_cnt := ino.open_cnt - 1 } ∧
      (∀ q, q ≠ p → (inode_close st (some p)).deref q = st.deref q)) := by
  constructor
  · refine ⟨st.store p ino.remove, by simp [inode_remove, h], rfl, rfl, store_keys _ _ _,
      deref_store_same _ _ _ _ h, fun q hq => deref_store_other _ _ _ _ hq, ?_⟩
    simp [inode_remove, deref_store_same _ _ _ _ h, store_store, inode.remove]
  · intro hc
    have hne : ¬ ino.open_cnt - 1 = 0 := by omega
    have hcl : inode_close st (some p) = st.store p { ino with open_cnt := ino.open_cnt - 1 } := by
      simp [inode_close, h, hne]
    rw [hcl]
    exact ⟨rfl, rfl, store_keys _ _ _, deref_store_same _ _ _ _ h,
      fun q hq => deref_store_other _ _ _ _ hq⟩

/-- Witness of C8: a handle with `open_cnt = 2` marked removed is closed
once; the file system is unchanged and the handle stays on the list with
`open_cnt = 1`. -/
theorem inode_remove_close_frame_witness :
    (State.mk fresh_fs [(7, twice_open_inode)] 8).deref 7 = some twice_open_inode ∧
    (0 : Int) < twice_open_inode.open_cnt - 1 ∧
    (inode_close (State.mk fresh_fs [(7, twice_open_inode)] 8) (some 7)).fs = fresh_fs ∧
    (inode_close (State.mk fresh_fs [(7, twice_open_inode)] 8) (some 7)).deref 7 =
      some { twice_open_inode with open_cnt := twice_open_inode.open_cnt - 1 } :=
  ⟨by decide, by decide,
    ((inode_remove_close_frame (State.mk fresh_fs [(7, twice_open_inode)] 8) 7 twice_open_inode
      (by decide)).2 (by decide)).1,
    ((inode_remove_close_frame (State.mk fresh_fs [(7, twice_open_inode)] 8) 7 twice_open_inode
      (by decide)).2 (by decide)).2.2.2.1⟩


/-- With distinct addresses, an element of the list is the structure at its
address. -/
theorem mem_deref (st : State) (p : Nat) (ino : inode)
    (hk : (st.open_inodes.map Prod.fst).Nodup) (h : (p, ino) ∈ st.open_inodes) :
    st.deref p = some ino := by
  cases hd : st.deref p with
  | none =>
    simp only [State.deref, Option.map_eq_none', List.find?_eq_none] at hd
    have := hd _ h
    simp at this
  | some x =>
    have hx := deref_mem st p x hd
    have := List.inj_on_of_nodup_map hk hx h rfl
    simp only [Prod.mk.injEq, true_and] at this
    rw [this]

/-- Membership in the list after an assignment through `p`. -/
theorem mem_store (st : State) (p : Nat) (ino ino1 : inode) (hd : st.deref p = some ino)
    (x : Nat × inode) :
    x ∈ (st.store p ino1).open_inodes ↔
      x = (p, ino1) ∨ (x ∈ st.open_inodes ∧ x.1 ≠ p) := by
  simp only [State.store, List.mem_map]
  constructor
  · rintro ⟨y, hy, rfl⟩
    by_cases hp : y.1 = p
    · simp [hp]
    · simp [hp, hy]
  · rintro (rfl | ⟨hx, hp⟩)
    · exact ⟨(p, ino), deref_mem st p ino hd, by simp⟩
    · exact ⟨x, hx, by simp [hp]⟩

/-- An assignment through `p` that keeps the sector and an `open_cnt` of at
least 1 adds the change of `open_cnt` to the count of that sector. -/
theorem counted_store (st : State) (f : Nat → Int) (p : Nat) (ino ino1 : inode)
    (hr : counted st.open_inodes st.next_block f) (hd : st.deref p = some ino)
    (hsec : ino1.sector = ino.sector) (hc : 1 ≤ ino1.open_cnt) :
    counted (st.store p ino1).open_inodes (st.store p ino1).next_block
      (fun s => f s + if ino.sector = s then ino1.open_cnt - ino.open_cnt else 0) := by
  obtain ⟨⟨hk, hs, hnb, hcnt⟩, hf, hz⟩ := hr
  have hmem := deref_mem st p ino hd
  have hms := mem_store st p ino ino1 hd
  have hsame : ∀ e ∈ st.open_inodes, e.1 = p → e = (p, ino) := by
    intro e he hp
    exact List.inj_on_of_nodup_map hk he hmem hp
  have hsect : (st.store p ino1).open_inodes.map (fun e => e.2.sector) =
      st.open_inodes.map (fun e => e.2.sector) := by
    simp only [State.store, List.map_map]
    apply List.map_congr_left
    intro e he
    by_cases hp : e.1 = p
    · simp [hp, hsec, hsame e he hp]
    · simp [hp]
  refine ⟨⟨?_, ?_, ?_, ?_⟩, ?_, ?_⟩
  · rw [store_keys]; exact hk
  · rw [hsect]; exact hs
  · intro e he
    rcases (hms e).1 he with rfl | ⟨he1, _⟩
    · exact hnb (p, ino) hmem
    · exact hnb _ he1
  · intro e he
    rcases (hms e).1 he with rfl | ⟨he1, _⟩
    · exact hc
    · exact hcnt _ he1
  · intro e he
    rcases (hms e).1 he with rfl | ⟨he1, hp⟩
    · have := hf _ hmem
      simp only [hsec, if_true]
      simp only at this
      omega
    · have hne : ¬ ino.sector = e.2.sector := by
        intro heq
        have := List.inj_on_of_nodup_map hs hmem he1 heq
        exact hp (by rw [← this])
      simp [hne, hf _ he1]
  · intro s hs1
    have hne : ¬ ino.sector = s := by
      intro heq
      exact hs1 (p, ino1) ((hms _).2 (Or.inl rfl)) (by simp [hsec, heq])
    have : ∀ e ∈ st.open_inodes, e.2.sector ≠ s := by
      intro e he heq
      by_cases hp : e.1 = p
      · rw [hsame e he hp] at heq
        exact hne heq
      · exact hs1 e ((hms e).2 (Or.inr ⟨he, hp⟩)) heq
    simp [hne, hz s this]


/-- The counts only matter pointwise. -/
theorem counted_congr (l : List (Nat × inode)) (nb : Nat) (f g : Nat → Int)
    (hr : counted l nb f) (hfg : ∀ s, g s = f s) : counted l nb g := by
  have : g = f := funext hfg
  rw [this]; exact hr

/-- Unlinking the handle at `p` takes its `open_cnt` off the count of its
sector. -/
theorem counted_drop (l : List (Nat × inode)) (nb : Nat) (f : Nat → Int) (p : Nat) (ino : inode)
    (hr : counted l nb f) (hmem : (p, ino) ∈ l) :
    counted (l.filter (fun e => e.1 != p)) nb
      (fun s => f s + if ino.sector = s then - ino.open_cnt else 0) := by
  obtain ⟨⟨hk, hs, hnb, hcnt⟩, hf, hz⟩ := hr
  have hmf : ∀ x, x ∈ l.filter (fun e => e.1 != p) ↔ x ∈ l ∧ x.1 ≠ p := by
    intro x; simp [List.mem_filter]
  have hsame : ∀ e ∈ l, e.1 = p → e = (p, ino) := fun e he hp =>
    List.inj_on_of_nodup_map hk he hmem hp
  refine ⟨⟨?_, ?_, ?_, ?_⟩, ?_, ?_⟩
  · exact List.Nodup.sublist ((List.filter_sublist l).map _) hk
  · exact List.Nodup.sublist ((List.filter_sublist l).map _) hs
  · intro e he; exact hnb e ((hmf e).1 he).1
  · intro e he; exact hcnt e ((hmf e).1 he).1
  · intro e he
    obtain ⟨he1, hp⟩ := (hmf e).1 he
    have hne : ¬ ino.sector = e.2.sector := by
      intro heq
      have := List.inj_on_of_nodup_map hs hmem he1 heq
      exact hp (by rw [← this])
    simp [hne, hf e he1]
  · intro s hs1
    by_cases heq : ino.sector = s
    · have := hf _ hmem
      simp only at this
      simp only [heq, if_true]
      rw [← heq]
      omega
    · have : ∀ e ∈ l, e.2.sector ≠ s := by
        intro e he hes
        by_cases hp : e.1 = p
        · rw [hsame e he hp] at hes
          exact heq hes
        · exact hs1 e ((hmf e).2 ⟨he, hp⟩) hes
      simp [heq, hz s this]

/-- Pushing a new handle with `open_cnt = 1` for a sector without a handle
adds 1 to the count of that sector. -/
theorem counted_push (l : List (Nat × inode)) (nb : Nat) (f : Nat → Int) (ino : inode)
    (hr : counted l nb f) (hnone : ∀ e ∈ l, e.2.sector ≠ ino.sector) (hc : ino.open_cnt = 1) :
    counted ((nb, ino) :: l) (nb + 1) (fun s => f s + if ino.sector = s then 1 else 0) := by
  obtain ⟨⟨hk, hs, hnb, hcnt⟩, hf, hz⟩ := hr
  refine ⟨⟨?_, ?_, ?_, ?_⟩, ?_, ?_⟩
  · simp only [List.map_cons, List.nodup_cons]
    refine ⟨?_, hk⟩
    intro hin
    obtain ⟨e, he, heq⟩ := List.mem_map.1 hin
    have := hnb e he
    omega
  · simp only [List.map_cons, List.nodup_cons]
    refine ⟨?_, hs⟩
    intro hin
    obtain ⟨e, he, heq⟩ := List.mem_map.1 hin
    exact hnone e he heq
  · intro e he
    rcases List.mem_cons.1 he with rfl | he1
    · simp
    · have := hnb e he1
      omega
  · intro e he
    rcases List.mem_cons.1 he with rfl | he1
    · simp [hc]
    · exact hcnt e he1
  · intro e he
    rcases List.mem_cons.1 he with rfl | he1
    · simp [hc, hz _ hnone]
    · have hne : ¬ ino.sector = e.2.sector := fun heq => hnone e he1 heq.symm
      simp [hne, hf e he1]
  · intro s hs1
    have hne : ¬ ino.sector = s := fun heq => hs1 (nb, ino) (List.mem_cons_self _ _) heq
    have : ∀ e ∈ l, e.2.sector ≠ s := fun e he => hs1 e (List.mem_cons_of_mem _ he)
    simp [hne, hz s this]

/-- An admissible call keeps the list of open inodes in agreement with the
counts, each count moved by what the call contributes. -/
theorem counted_apply (st : State) (f : Nat → Int) (c : Call)
    (hr : counted st.open_inodes st.next_block f) (ha : c.admissible st) :
    counted (c.apply st).open_inodes (c.apply st).next_block (fun s => f s + c.delta st s) := by
  have hk := hr.1.1
  cases c with
  | do_open sector malloc_ok =>
    cases hfind : st.open_inodes.find? (fun e => e.2.sector == sector) with
    | some e =>
      have hmem := List.mem_of_find?_eq_some hfind
      have hsec : e.2.sector = sector := by simpa using List.find?_some hfind
      have hd : st.deref e.1 = some e.2 := mem_deref st e.1 e.2 hk hmem
      have := counted_store st f e.1 e.2 { e.2 with open_cnt := e.2.open_cnt + 1 } hr hd rfl
        (by have := hr.1.2.2.2 e hmem; simp only; omega)
      have happ : (Call.do_open sector malloc_ok).apply st
          = st.store e.1 { e.2 with open_cnt := e.2.open_cnt + 1 } := by
        simp [Call.apply, inode_open, hfind, inode_reopen, hd]
      rw [happ]
      refine counted_congr _ _ _ _ this ?_
      intro s
      simp [Call.delta, inode_open, hfind, inode_reopen, hd, hsec]
    | none =>
      have hnone : ∀ e ∈ st.open_inodes, e.2.sector ≠ sector := by
        intro e he
        have := List.find?_eq_none.1 hfind e he
        simpa using this
      cases malloc_ok with
      | false =>
        have happ : (Call.do_open sector false).apply st = st := by
          simp [Call.apply, inode_open, hfind]
        rw [happ]
        refine counted_congr _ _ _ _ hr ?_
        intro s
        simp [Call.delta, inode_open, hfind]
      | true =>
        have := counted_push st.open_inodes st.next_block f
          { sector := sector, open_cnt := 1, deny_write_cnt := 0, removed := false
            data := if sector = 1 then
                { inode_disk.of_bytes (disk_read st.fs.filesys_disk sector) with is_dir := true }
              else inode_disk.of_bytes (disk_read st.fs.filesys_disk sector) }
          hr hnone rfl
        simp only [Call.apply, inode_open, hfind]
        refine counted_congr _ _ _ _ this ?_
        intro s
        simp [Call.delta, inode_open, hfind]
  | do_reopen handle =>
    cases handle with
    | none =>
      refine counted_congr _ _ _ _ hr ?_
      intro s
      simp [Call.delta]
    | some p =>
      cases hd : st.deref p with
      | none => exact absurd hd ha
      | some ino =>
        have := counted_store st f p ino { ino with open_cnt := ino.open_cnt + 1 } hr hd rfl
          (by have := hr.1.2.2.2 _ (deref_mem st p ino hd); simp only at this ⊢; omega)
        have happ : (Call.do_reopen (some p)).apply st
            = st.store p { ino with open_cnt := ino.open_cnt + 1 } := by
          simp [Call.apply, inode_reopen, hd]
        rw [happ]
        refine counted_congr _ _ _ _ this ?_
        intro s
        simp [Call.delta, hd]
  | do_close handle =>
    cases handle with
    | none =>
      refine counted_congr _ _ _ _ hr ?_
      intro s
      simp [Call.delta]
    | some p =>
      cases hd : st.deref p with
      | none => exact absurd hd ha
      | some ino =>
        have hmem := deref_mem st p ino hd
        have hge := hr.1.2.2.2 _ hmem
        simp only at hge
        by_cases h0 : ino.open_cnt - 1 = 0
        · have := counted_drop st.open_inodes st.next_block f p ino hr hmem
          have hl : ((Call.do_close (some p)).apply st).open_inodes =
              st.open_inodes.filter (fun e => e.1 != p) := by
            by_cases hrm : ino.removed = true <;> simp [Call.apply, inode_close, hd, h0, hrm]
          have hn : ((Call.do_close (some p)).apply st).next_block = st.next_block := by
            by_cases hrm : ino.removed = true <;> simp [Call.apply, inode_close, hd, h0, hrm]
          rw [hl, hn]
          refine counted_congr _ _ _ _ this ?_
          intro s
          have h1 : ino.open_cnt = 1 := by omega
          simp [Call.delta, hd, h1]
        · have := counted_store st f p ino { ino with open_cnt := ino.open_cnt - 1 } hr hd rfl
            (by simp only; omega)
          have happ : (Call.do_close (some p)).apply st
              = st.store p { ino with open_cnt := ino.open_cnt - 1 } := by
            simp [Call.apply, inode_close, hd, h0]
          rw [happ]
          refine counted_congr _ _ _ _ this ?_
          intro s
          simp [Call.delta, hd]


/-- An admissible sequence of calls keeps the list of open inodes in
agreement with the counts, each count moved by the balance of the
sequence. -/
theorem counted_run (cs : List Call) (st : State) (f : Nat → Int)
    (hr : counted st.open_inodes st.next_block f) (ha : admissible st cs) :
    counted (run st cs).open_inodes (run st cs).next_block (fun s => f s + balance s st cs) := by
  induction cs generalizing st f with
  | nil =>
    refine counted_congr _ _ _ _ hr ?_
    intro s
    simp [balance]
  | cons c cs ih =>
    have h1 := counted_apply st f c hr ha.1
    have h2 := ih (c.apply st) _ h1 ha.2
    refine counted_congr _ _ _ _ h2 ?_
    intro s
    simp only [balance]
    omega

/-- After `inode_init` the list of open inodes is empty and every count is
0. -/
theorem counted_init (st0 : State) :
    counted (inode_init st0).open_inodes (inode_init st0).next_block (fun _ => 0) := by
  simp [counted, open_inodes_wf, inode_init]

/-- The block unlinked by a close is not live afterwards. -/
theorem deref_filter_self (fs : FS) (l : List (Nat × inode)) (nb p : Nat) :
    (State.mk fs (l.filter (fun e => e.1 != p)) nb).deref p = none := by
  simp only [State.deref, Option.map_eq_none', List.find?_eq_none]
  intro x hx
  have := (List.mem_filter.1 hx).2
  simpa using this

/-- Unlinking the block at `q` leaves every other block as it was. -/
theorem deref_filter_other (fs fs1 : FS) (l : List (Nat × inode)) (nb p q : Nat) (hq : q ≠ p) :
    (State.mk fs1 (l.filter (fun e => e.1 != q)) nb).deref p = (State.mk fs l nb).deref p := by
  simp only [State.deref, List.find?_filter]
  congr 2
  funext a
  by_cases ha : a.1 = p
  · have : ¬ a.1 = q := by omega
    simp [ha, this]
    omega
  · simp [ha]

/-- A live block is no longer live after a call exactly when the call is the
`inode_close` of that block and finds `open_cnt = 1`. -/
theorem deref_apply_eq_none (st : State) (c : Call) (p : Nat) (ino : inode)
    (hwf : open_inodes_wf st.open_inodes st.next_block) (ha : c.admissible st)
    (hd : st.deref p = some ino) :
    (c.apply st).deref p = none ↔ c = Call.do_close (some p) ∧ ino.open_cnt - 1 = 0 := by
  have hstore : ∀ q inoq ino1, st.deref q = some inoq → (st.store q ino1).deref p ≠ none := by
    intro q inoq ino1 hq
    by_cases hpq : p = q
    · subst hpq
      rw [deref_store_same _ _ _ _ hq]; simp
    · rw [deref_store_other _ _ _ _ hpq, hd]; simp
  cases c with
  | do_open sector malloc_ok =>
    simp only [false_and, iff_false, reduceCtorEq]
    cases hfind : st.open_inodes.find? (fun e => e.2.sector == sector) with
    | some e =>
      have hmem := List.mem_of_find?_eq_some hfind
      have hde : st.deref e.1 = some e.2 := mem_deref st e.1 e.2 hwf.1 hmem
      have happ : (Call.do_open sector malloc_ok).apply st
          = st.store e.1 { e.2 with open_cnt := e.2.open_cnt + 1 } := by
        simp [Call.apply, inode_open, hfind, inode_reopen, hde]
      rw [happ]
      exact hstore _ _ _ hde
    | none =>
      cases malloc_ok with
      | false =>
        have happ : (Call.do_open sector false).apply st = st := by
          simp [Call.apply, inode_open, hfind]
        rw [happ, hd]; simp
      | true =>
        simp only [Call.apply, inode_open, hfind]
        have := deref_cons st.fs (st.next_block,
          ({ sector := sector, open_cnt := 1, deny_write_cnt := 0, removed := false
             data := if sector = 1 then
                { inode_disk.of_bytes (disk_read st.fs.filesys_disk sector) with is_dir := true }
              else inode_disk.of_bytes (disk_read st.fs.filesys_disk sector) } : inode))
          st.open_inodes (st.next_block + 1) p
        simp only [Bool.true_eq_false, if_false]
        rw [this]
        by_cases hp : st.next_block = p
        · simp [hp]
        · simp only [hp, if_false]
          have : (State.mk st.fs st.open_inodes (st.next_block + 1)).deref p = st.deref p := rfl
          rw [this, hd]; simp
  | do_reopen handle =>
    simp only [false_and, iff_false, reduceCtorEq]
    cases handle with
    | none => simp [Call.apply, inode_reopen, hd]
    | some q =>
      cases hq : st.deref q with
      | none => exact absurd hq ha
      | some inoq =>
        have happ : (Call.do_reopen (some q)).apply st
            = st.store q { inoq with open_cnt := inoq.open_cnt + 1 } := by
          simp [Call.apply, inode_reopen, hq]
        rw [happ]
        exact hstore _ _ _ hq
  | do_close handle =>
    cases handle with
    | none => simp [Call.apply, inode_close, hd]
    | some q =>
      cases hq : st.deref q with
      | none => exact absurd hq ha
      | some inoq =>
        by_cases h0 : inoq.open_cnt - 1 = 0
        · have hl : (Call.do_close (some q)).apply st =
              State.mk ((Call.do_close (some q)).apply st).fs
                (st.open_inodes.filter (fun e => e.1 != q)) st.next_block := by
            by_cases hrm : inoq.removed = true <;> simp [Call.apply, inode_close, hq, h0, hrm]
          rw [hl]
          by_cases hpq : q = p
          · subst hpq
            have : inoq = ino := by rw [hq] at hd; exact Option.some.inj hd
            subst this
            simp [deref_filter_self, h0]
          · rw [deref_filter_other st.fs _ _ _ _ _ hpq]
            have : (State.mk st.fs st.open_inodes st.next_block).deref p = st.deref p := rfl
            rw [this, hd]
            simp [hpq]
        · have happ : (Call.do_close (some q)).apply st
              = st.store q { inoq with open_cnt := inoq.open_cnt - 1 } := by
            simp [Call.apply, inode_close, hq, h0]
          rw [happ]
          have h1 := hstore _ _ { inoq with open_cnt := inoq.open_cnt - 1 } hq
          constructor
          · intro h; exact absurd h h1
          · rintro ⟨hc, h2⟩
            have hpq : q = p := by simpa using hc
            subst hpq
            have : inoq = ino := by rw [hq] at hd; exact Option.some.inj hd
            subst this
            exact absurd h2 h0

/-- After an admissible sequence of calls made from an empty list of open
inodes, the count of a sector is not negative, it is the `open_cnt` of the
handle of that sector, it is at least 1 exactly when the sector has a handle,
and every `open_cnt` on the list is at least 1. -/
theorem balance_facts (st0 : State) (cs : List Call) (s : Nat)
    (ha : admissible (inode_init st0) cs) :
    0 ≤ balance s (inode_init st0) cs ∧
    (∀ p ino, (run (inode_init st0) cs).deref p = some ino → ino.sector = s →
      ino.open_cnt = balance s (inode_init st0) cs) ∧
    ((∃ p ino, (run (inode_init st0) cs).deref p = some ino ∧ ino.sector = s) ↔
      1 ≤ balance s (inode_init st0) cs) ∧
    (∀ p ino, (run (inode_init st0) cs).deref p = some ino → 1 ≤ ino.open_cnt) := by
  have hr := counted_run cs (inode_init st0) (fun _ => 0) (counted_init st0) ha
  obtain ⟨⟨hk, hs, hnb, hcnt⟩, hf, hz⟩ := hr
  simp only [zero_add] at hf hz
  have h2 : ∀ p ino, (run (inode_init st0) cs).deref p = some ino → ino.sector = s →
      ino.open_cnt = balance s (inode_init st0) cs := by
    intro p ino hd hsec
    have := hf _ (deref_mem _ p ino hd)
    simp only at this
    rw [this, hsec]
  have h4 : ∀ p ino, (run (inode_init st0) cs).deref p = some ino → 1 ≤ ino.open_cnt :=
    fun p ino hd => hcnt _ (deref_mem _ p ino hd)
  have h3 : (∃ p ino, (run (inode_init st0) cs).deref p = some ino ∧ ino.sector = s) ↔
      1 ≤ balance s (inode_init st0) cs := by
    constructor
    · rintro ⟨p, ino, hd, hsec⟩
      rw [← h2 p ino hd hsec]
      exact h4 p ino hd
    · intro hb
      by_contra hne
      have : ∀ e ∈ (run (inode_init st0) cs).open_inodes, e.2.sector ≠ s := by
        intro e he hes
        exact hne ⟨e.1, e.2, mem_deref _ e.1 e.2 hk he, hes⟩
      have := hz s this
      omega
  refine ⟨?_, h2, h3, h4⟩
  by_cases hex : ∃ p ino, (run (inode_init st0) cs).deref p = some ino ∧ ino.sector = s
  · have := h3.1 hex
    omega
  · have : ∀ e ∈ (run (inode_init st0) cs).open_inodes, e.2.sector ≠ s := by
      intro e he hes
      exact hex ⟨e.1, e.2, mem_deref _ e.1 e.2 hk he, hes⟩
    have := hz s this
    omega

/-- The state after two sequences of calls made one after the other. -/
theorem run_append (st : State) (cs1 cs2 : List Call) :
    run st (cs1 ++ cs2) = run (run st cs1) cs2 := by
  induction cs1 generalizing st with
  | nil => rfl
  | cons c cs ih => simp [run, ih]

/-- The balance of two sequences of calls made one after the other. -/
theorem balance_append (s : Nat) (st : State) (cs1 cs2 : List Call) :
    balance s st (cs1 ++ cs2) = balance s st cs1 + balance s (run st cs1) cs2 := by
  induction cs1 generalizing st with
  | nil => simp [balance, run]
  | cons c cs ih =>
    show c.delta st s + balance s (c.apply st) (cs ++ cs2) =
      c.delta st s + balance s (c.apply st) cs + balance s (run (c.apply st) cs) cs2
    rw [ih]
    omega

/-- The first part of an admissible sequence of calls is admissible. -/
theorem admissible_append (st : State) (cs1 cs2 : List Call) (h : admissible st (cs1 ++ cs2)) :
    admissible st cs1 := by
  induction cs1 generalizing st with
  | nil => trivial
  | cons c cs ih => exact ⟨h.1, ih _ h.2⟩

/-- C9: after every admissible sequence of `inode_open`, `inode_reopen` and
`inode_close` calls made from an empty list of open inodes, the count of a
sector `s` (opens that returned a handle plus reopens minus closes of `s`) is
never negative, the `open_cnt` of a handle of `s` on the list equals that
count, a handle of `s` is on the list exactly when the count is at least 1,
and no `open_cnt` on the list is below 1.  The count may be taken since the
handle was created: it equals the count of the calls made after any moment
at which `s` had no handle. -/
theorem open_cnt_eq_balance (st0 : State) (cs : List Call) (s : Nat)
    (ha : admissible (inode_init st0) cs) :
    0 ≤ balance s (inode_init st0) cs ∧
    (∀ p ino, (run (inode_init st0) cs).deref p = some ino → ino.sector = s →
      ino.open_cnt = balance s (inode_init st0) cs) ∧
    ((∃ p ino, (run (inode_init st0) cs).deref p = some ino ∧ ino.sector = s) ↔
      1 ≤ balance s (inode_init st0) cs) ∧
    (∀ p ino, (run (inode_init st0) cs).deref p = some ino → 1 ≤ ino.open_cnt) ∧
    (∀ cs1 cs2, cs = cs1 ++ cs2 →
      (¬ ∃ p ino, (run (inode_init st0) cs1).deref p = some ino ∧ ino.sector = s) →
      balance s (inode_init st0) cs = balance s (run (inode_init st0) cs1) cs2) := by
  obtain ⟨h1, h2, h3, h4⟩ := balance_facts st0 cs s ha
  refine ⟨h1, h2, h3, h4, ?_⟩
  intro cs1 cs2 hcs hno
  subst hcs
  obtain ⟨g1, _, g3, _⟩ := balance_facts st0 cs1 s (admissible_append _ _ _ ha)
  have : ¬ 1 ≤ balance s (inode_init st0) cs1 := fun h => hno (g3.2 h)
  rw [balance_append]
  omega

/-- C10: in every state reached from `inode_init` by an admissible sequence
of `inode_open`, `inode_reopen` and `inode_close` calls, the list of open
inodes holds at most one handle per sector number, and a handle on the list
is off the list after one more admissible call exactly when that call is the
`inode_close` of this handle and brings its `open_cnt` to 0. -/
theorem open_inodes_one_per_sector (st0 : State) (cs : List Call)
    (ha : admissible (inode_init st0) cs) :
    ((run (inode_init st0) cs).open_inodes.map (fun e => e.2.sector)).Nodup ∧
    (∀ p q ino1 ino2, (run (inode_init st0) cs).deref p = some ino1 →
      (run (inode_init st0) cs).deref q = some ino2 → ino1.sector = ino2.sector → p = q) ∧
    (∀ (c : Call) p ino, c.admissible (run (inode_init st0) cs) →
      (run (inode_init st0) cs).deref p = some ino →
      ((c.apply (run (inode_init st0) cs)).deref p = none ↔
        c = Call.do_close (some p) ∧ ino.open_cnt - 1 = 0)) := by
  have hr := counted_run cs (inode_init st0) (fun _ => 0) (counted_init st0) ha
  refine ⟨hr.1.2.1, ?_, ?_⟩
  · intro p q ino1 ino2 h1 h2 hsec
    have := List.inj_on_of_nodup_map hr.1.2.1 (deref_mem _ _ _ h1) (deref_mem _ _ _ h2) hsec
    exact (Prod.mk.inj this).1
  · intro c p ino hc hd
    exact deref_apply_eq_none _ c p ino hr.1 hc hd


/-- The calls of `example_calls` are admissible from the empty list. -/
theorem example_calls_admissible :
    admissible (inode_init (fresh_state fresh_fs)) example_calls := by
  refine ⟨trivial, trivial, trivial, ?_, ?_, ?_, trivial⟩
  · show _ ≠ none
    decide
  · show _ ≠ none
    decide
  · show _ ≠ none
    decide

/-- Witness of C9: after `example_calls` the count of sector 2 is 2 and a
handle of sector 2 is on the list. -/
theorem open_cnt_eq_balance_witness :
    admissible (inode_init (fresh_state fresh_fs)) example_calls ∧
    balance 2 (inode_init (fresh_state fresh_fs)) example_calls = 2 ∧
    (∃ p ino, (run (inode_init (fresh_state fresh_fs)) example_calls).deref p = some ino ∧
      ino.sector = 2) :=
  ⟨example_calls_admissible, by decide,
    (open_cnt_eq_balance (fresh_state fresh_fs) example_calls 2
      example_calls_admissible).2.2.1.2 (by decide)⟩

/-- Witness of C10: after `example_calls` the sectors on the list are
distinct. -/
theorem open_inodes_one_per_sector_witness :
    admissible (inode_init (fresh_state fresh_fs)) example_calls ∧
    ((run (inode_init (fresh_state fresh_fs)) example_calls).open_inodes.map
      (fun e => e.2.sector)).Nodup :=
  ⟨example_calls_admissible,
    (open_inodes_one_per_sector (fresh_state fresh_fs) example_calls
      example_calls_admissible).1⟩

/-- C16: `inode_open` of a sector with no handle on the list, when `malloc`
succeeds, returns the address of a new block, leaves the file system as it
is, and pushes a handle with `open_cnt = 1`, `deny_write_cnt = 0`,
`removed = false` whose cached record is the record read from that sector of
the disk, with `is_dir` forced to true when the sector is 1 and left as read
for every other sector. -/
theorem inode_open_new_handle (st : State) (sector : Nat)
    (hnone : ∀ e ∈ st.open_inodes, e.2.sector ≠ sector) :
    ∃ ino, inode_open st sector true =
        (some st.next_block,
          { fs := st.fs, open_inodes := (st.next_block, ino) :: st.open_inodes
            next_block := st.next_block + 1 }) ∧
      (inode_open st sector true).2.deref st.next_block = some ino ∧
      ino.sector = sector ∧ ino.open_cnt = 1 ∧ ino.deny_write_cnt = 0 ∧ ino.removed = false ∧
      ino.data.start = (inode_disk.of_bytes (disk_read st.fs.filesys_disk sector)).start ∧
      ino.data.last = (inode_disk.of_bytes (disk_read st.fs.filesys_disk sector)).last ∧
      ino.data.length = (inode_disk.of_bytes (disk_read st.fs.filesys_disk sector)).length ∧
      ino.data.magic = (inode_disk.of_bytes (disk_read st.fs.filesys_disk sector)).magic ∧
      (sector = 1 → ino.data.is_dir = true) ∧
      (sector ≠ 1 →
        ino.data = inode_disk.of_bytes (disk_read st.fs.filesys_disk sector)) := by
  have hfind : st.open_inodes.find? (fun e => e.2.sector == sector) = none := by
    rw [List.find?_eq_none]
    intro e he
    simpa using hnone e he
  refine ⟨(⟨sector, 1, false, 0,
      if sector = 1 then
        { inode_disk.of_bytes (disk_read st.fs.filesys_disk sector) with is_dir := true }
      else inode_disk.of_bytes (disk_read st.fs.filesys_disk sector)⟩ : inode), ?_, ?_, ?_⟩
  · simp [inode_open, hfind]
  · simp [inode_open, hfind, State.deref]
  · by_cases h1 : sector = 1 <;> simp [h1]

/-- Witness of C16: the root directory sector is opened on an inode module
with no open inode; the disk holds zeros there, and the handle is a
directory. -/
theorem inode_open_new_handle_witness :
    (∀ e ∈ (fresh_state fresh_fs).open_inodes, e.2.sector ≠ 1) ∧
    ∃ ino, inode_open (fresh_state fresh_fs) 1 true =
        (some 0, { fs := fresh_fs, open_inodes := [(0, ino)], next_block := 1 }) ∧
      ino.open_cnt = 1 ∧ ino.data.is_dir = true :=
  ⟨by simp [fresh_state],
    (inode_open_new_handle (fresh_state fresh_fs) 1 (by simp [fresh_state])).imp
      fun _ h => ⟨h.1, h.2.2.2.1, h.2.2.2.2.2.2.2.2.2.2.1 rfl⟩⟩

/-- C13 (code at the failing input): a regular file of 1024 bytes (chain
3 → 4) is created and opened, 100 bytes are written at offset 1024, which on
a device that takes the null buffer of the growth step for a sector of zeros
grows the cached record to length 1124 with last cluster 5, and the handle is
closed by its only opener.  The close writes nothing: the record in sector 2
still has length 1024 and last cluster 4, and so has the handle returned by
the next `inode_open` of sector 2.  On a device that does not return from a
write with a null buffer the growing write has no result, whatever the fuel,
so the file is never grown and closed. -/
theorem inode_close_keeps_disk_record :
    (create_open_write_close_open .zero_filled 10 fresh_fs 2 1024 pattern 100 1024).map
        (fun r =>
          (r.1.map (fun ino => (ino.open_cnt, ino.data.length, ino.data.last)),
            (inode_disk.of_bytes (disk_read r.2.2.fs.filesys_disk 2)).length,
            (r.2.1.bind r.2.2.deref).map (fun ino => (ino.data.length, ino.data.last)))) =
      some (some (1, 1124, 5), 1024, some (1024, 4)) ∧
    ∀ fuel,
      create_open_write_close_open .no_return fuel fresh_fs 2 1024 pattern 100 1024 = none := by
  refine ⟨by decide, fun fuel => ?_⟩
  cases fuel <;> rfl

/-- C17 (code at the failing input): a regular file of 1024 bytes is created
(chain 3 → 4, `last = 4`) and opened, and 1024 bytes are written at offset
1024.  On a device that takes the null buffer of the growth step for a sector
of zeros, the growth step allocates clusters 5 and 6, both linked after the
old tail 4, so the link to 5 is overwritten: the chain from `start` is
3 → 4 → 6 with three clusters although `bytes_to_sectors 2048 = 4`, and
cluster 5 is the end of a chain nothing points to.  On a device that does not
return from a write with a null buffer the write has no result, whatever the
fuel. -/
theorem inode_write_at_growth_by_two :
    bytes_to_sectors 2048 = 4 ∧
    (create_open fresh_fs 2 1024).map
        (fun o =>
          ((o.1.bind o.2.deref).map (fun ino => (ino.data.start, ino.data.last,
              ino.data.length)), fat_get o.2.fs.fat 3, fat_get o.2.fs.fat 4)) =
      some (some (3, 4, 1024), 4, EOChain) ∧
    (create_open_write .zero_filled 10 fresh_fs 2 1024 pattern 1024 1024).map
        (fun r =>
          (r.1, (r.2.2.deref r.2.1).map (fun ino => (ino.data.start, ino.data.last,
              ino.data.length)), r.2.2.fs.fat.created)) =
      some (1024, some (3, 6, 2048), [6, 5, 4, 3]) ∧
    (create_open_write .zero_filled 10 fresh_fs 2 1024 pattern 1024 1024).map
        (fun r => (fat_get r.2.2.fs.fat 3, fat_get r.2.2.fs.fat 4, fat_get r.2.2.fs.fat 5,
          fat_get r.2.2.fs.fat 6)) =
      some (4, 6, EOChain, EOChain) ∧
    ∀ fuel, create_open_write .no_return fuel fresh_fs 2 1024 pattern 1024 1024 = none := by
  exact ⟨by decide, by decide, by decide, by decide, fun fuel => by cases fuel <;> rfl⟩

/-- C18 (code at the failing input): on a table of 5 clusters a regular file
of 1024 bytes takes the last free clusters 3 and 4.  A write of 512 bytes at
offset 1024 needs one more cluster; `fat_create_chain` returns 0, no cluster
is allocated, and the code goes on to `disk_write` for the sector of cluster
0 with a null buffer.  On a device that takes that for a sector of zeros
`last` becomes 0 and the write still returns 512, the full size.  On a device
that does not return from a write with a null buffer the write has no result,
whatever the fuel: in neither case does it return fewer bytes than
requested. -/
theorem inode_write_at_allocator_failure :
    (create_open small_fs 2 1024).map
        (fun o => (fat_create_chain o.2.fs.fat 4).1) = some 0 ∧
    (create_open_write .zero_filled 10 small_fs 2 1024 pattern 512 1024).map
        (fun r =>
          (r.1, (r.2.2.deref r.2.1).map (fun ino => (ino.data.last, ino.data.length)),
            r.2.2.fs.fat.created)) =
      some (512, some (0, 1536), [4, 3]) ∧
    ∀ fuel, create_open_write .no_return fuel small_fs 2 1024 pattern 512 1024 = none := by
  exact ⟨by decide, by decide, fun fuel => by cases fuel <;> rfl⟩

/-- A write through a directory handle whose range ends beyond the sector
never leaves the loop of `inode_write_at`, whatever the fuel and the device:
once the offset has reached the end of the sector every iteration takes the
growth branch, where the call either does not return from the device or
continues with the same size and offset. -/
theorem inode_write_loop_directory (dev : null_write) (buffer : Nat → Nat) (fuel : Nat) (fs : FS)
    (ino : inode) (size offset bytes_written : Int) (hdir : ino.data.is_dir = true)
    (ho : 0 ≤ offset) (hsz : 0 < size) (hs : 512 < offset + size) :
    inode_write_loop dev buffer true fuel fs ino size offset bytes_written = none := by
  induction fuel generalizing fs ino size offset bytes_written with
  | zero => rfl
  | succ fuel ih =>
    have hm : offset.tmod 512 = offset % 512 := Int.tmod_eq_emod ho (by norm_num)
    rw [inode_write_loop]
    simp only [hdir, DISK_SECTOR_SIZE, hm, Bool.true_eq_false, if_false]
    by_cases h512 : 512 ≤ offset
    · have hc : (if size < (if 512 - offset < 512 - offset % 512 then 512 - offset
          else 512 - offset % 512) then size
          else (if 512 - offset < 512 - offset % 512 then 512 - offset
            else 512 - offset % 512)) ≤ 0 := by
        split_ifs <;> omega
      have hsz1 : size > 0 := hsz
      simp only [hsz1, hc, if_true]
      split_ifs
      · split
        · rfl
        · exact ih _ _ _ _ _ rfl ho hsz hs
      · exact ih _ _ _ _ _ rfl ho hsz hs
    · have hmod : offset % 512 = offset := by omega
      have hc : (if size < (if 512 - offset < 512 - offset % 512 then 512 - offset
          else 512 - offset % 512) then size
          else (if 512 - offset < 512 - offset % 512 then 512 - offset
            else 512 - offset % 512)) = 512 - offset := by
        split_ifs <;> omega
      have hpos : ¬ (512 - offset ≤ 0) := by omega
      have hsz1 : size > 0 := hsz
      simp only [hsz1, hc, hpos, if_true, if_false]
      split_ifs <;> exact ih _ _ _ _ _ hdir (by omega) (by omega) (by omega)

/-- C12 (code at the failing input): 100 bytes are written at offset 500
through a directory handle with `deny_write_cnt = 0`.  The call never
returns, whatever the fuel and whatever the device does with a null buffer:
after the 12 bytes that fit are written, the growth branch (on a device that
takes the null buffer for a sector of zeros) sets the cached length to 600,
allocates clusters 3 and 4 and sets `last` to 4, and the loop goes on with 88
bytes left at offset 512. -/
theorem inode_write_at_directory_past_sector :
    (∀ dev fuel, inode_write_at dev fuel fresh_fs dir_inode pattern 100 500 true = none) ∧
    ∃ fs2 ino2,
      (∀ fuel,
        inode_write_loop .zero_filled pattern true (fuel + 2) fresh_fs dir_inode 100 500 0 =
          inode_write_loop .zero_filled pattern true fuel fs2 ino2 88 512 12) ∧
      ino2.data.is_dir = true ∧ ino2.data.length = 600 ∧ ino2.data.last = 4 ∧
      fs2.fat.created = [4, 3] := by
  constructor
  · intro dev fuel
    have := inode_write_loop_directory dev pattern fuel fresh_fs dir_inode 100 500 0 rfl
      (by norm_num) (by norm_num) (by norm_num)
    simpa [inode_write_at, dir_inode] using this
  · refine ⟨_, _, fun fuel => rfl, ?_⟩
    decide

/-- An assignment through a live pointer keeps the bounds of
`deny_write_cnt` when the structure assigned has them. -/
theorem guarded_store (st : State) (p : Nat) (ino ino1 : inode)
    (hg : guarded st.open_inodes) (hd : st.deref p = some ino)
    (h1 : 0 ≤ ino1.deny_write_cnt ∧ ino1.deny_write_cnt ≤ ino1.open_cnt) :
    guarded (st.store p ino1).open_inodes := by
  intro e he
  rcases (mem_store st p ino ino1 hd e).1 he with rfl | ⟨he1, _⟩
  · exact h1
  · exact hg e he1

/-- A call of `inode_open`, `inode_reopen` or `inode_close` that follows the
protocol keeps the bounds of `deny_write_cnt`. -/
theorem guarded_call (st : State) (c : Call) (hg : guarded st.open_inodes)
    (hrel : (GuardCall.call c).released st) : guarded (c.apply st).open_inodes := by
  have hre : ∀ p, guarded (inode_reopen st (some p)).2.open_inodes := by
    intro p
    cases hd : st.deref p with
    | none => simpa [inode_reopen, hd] using hg
    | some ino =>
      have hb : 0 ≤ ino.deny_write_cnt ∧ ino.deny_write_cnt ≤ ino.open_cnt :=
        hg _ (deref_mem st p ino hd)
      simp only [inode_reopen, hd]
      exact guarded_store st p ino _ hg hd ⟨hb.1, by simp only; omega⟩
  cases c with
  | do_open sector malloc_ok =>
    cases hfind : st.open_inodes.find? (fun e => e.2.sector == sector) with
    | some e =>
      simp only [Call.apply, inode_open, hfind]
      exact hre e.1
    | none =>
      cases malloc_ok with
      | false => simpa [Call.apply, inode_open, hfind] using hg
      | true =>
        simp only [Call.apply, inode_open, hfind, Bool.true_eq_false, if_false]
        intro e he
        rcases List.mem_cons.1 he with rfl | he1
        · simp
        · exact hg e he1
  | do_reopen handle =>
    cases handle with
    | none => simpa [Call.apply, inode_reopen] using hg
    | some p => exact hre p
  | do_close handle =>
    cases handle with
    | none => simpa [Call.apply, inode_close] using hg
    | some p =>
      cases hd : st.deref p with
      | none => simpa [Call.apply, inode_close, hd] using hg
      | some ino =>
        have hb : 0 ≤ ino.deny_write_cnt ∧ ino.deny_write_cnt ≤ ino.open_cnt :=
        hg _ (deref_mem st p ino hd)
        have hlt : ino.deny_write_cnt < ino.open_cnt := by
          simpa [GuardCall.released, hd] using hrel
        by_cases h0 : ino.open_cnt - 1 = 0
        · have hl : ((Call.do_close (some p)).apply st).open_inodes =
              st.open_inodes.filter (fun e => e.1 != p) := by
            by_cases hrm : ino.removed = true <;> simp [Call.apply, inode_close, hd, h0, hrm]
          rw [hl]
          intro e he
          exact hg e (List.mem_filter.1 he).1
        · simp only [Call.apply, inode_close, hd, h0, if_false]
          exact guarded_store st p ino _ hg hd ⟨hb.1, by simp only; omega⟩

/-- A call that follows the protocol and whose assertions pass keeps the
bounds of `deny_write_cnt`. -/
theorem guarded_apply (st st1 : State) (c : GuardCall) (hg : guarded st.open_inodes)
    (hrel : c.released st) (happ : c.apply st = some st1) : guarded st1.open_inodes := by
  cases c with
  | call c =>
    simp only [GuardCall.apply, Option.some.injEq] at happ
    rw [← happ]
    exact guarded_call st c hg hrel
  | do_deny_write p =>
    simp only [GuardCall.apply, inode_deny_write] at happ
    cases hd : st.deref p with
    | none =>
      simp only [hd, Option.some.injEq] at happ
      rw [← happ]; exact hg
    | some ino =>
      have hb : 0 ≤ ino.deny_write_cnt ∧ ino.deny_write_cnt ≤ ino.open_cnt :=
        hg _ (deref_mem st p ino hd)
      simp only [hd] at happ
      by_cases hc : ino.deny_write_cnt + 1 ≤ ino.open_cnt
      · simp only [hc, if_true, Option.some.injEq] at happ
        rw [← happ]
        exact guarded_store st p ino _ hg hd ⟨by simp only; omega, by simp only; omega⟩
      · simp [hc] at happ
  | do_allow_write p =>
    simp only [GuardCall.apply, inode_allow_write] at happ
    cases hd : st.deref p with
    | none =>
      simp only [hd, Option.some.injEq] at happ
      rw [← happ]; exact hg
    | some ino =>
      have hb : 0 ≤ ino.deny_write_cnt ∧ ino.deny_write_cnt ≤ ino.open_cnt :=
        hg _ (deref_mem st p ino hd)
      simp only [hd] at happ
      by_cases hc : ino.deny_write_cnt > 0 ∧ ino.deny_write_cnt ≤ ino.open_cnt
      · simp only [hc, and_self, if_true, Option.some.injEq] at happ
        rw [← happ]
        exact guarded_store st p ino _ hg hd ⟨by simp only; omega, by simp only; omega⟩
      · simp [hc] at happ

/-- A sequence of calls that follows the protocol and whose assertions pass
keeps the bounds of `deny_write_cnt`. -/
theorem guarded_run (cs : List GuardCall) (st st1 : State) (hg : guarded st.open_inodes)
    (hrel : guard_released st cs) (hrun : guard_run st cs = some st1) :
    guarded st1.open_inodes := by
  induction cs generalizing st with
  | nil =>
    simp only [guard_run, Option.some.injEq] at hrun
    rw [← hrun]; exact hg
  | cons c cs ih =>
    simp only [guard_run] at hrun
    cases happ : c.apply st with
    | none => simp [happ] at hrun
    | some st2 =>
      simp only [happ, Option.some_bind] at hrun
      have hrel2 := hrel.2
      simp only [happ] at hrel2
      exact ih st2 (guarded_apply st st2 c hg hrel.1 happ) hrel2 hrun

/-- C11 (as stated, refuted): sector 2 is opened and reopened, writes are
denied twice and the handle is closed once.  Every assertion passes, and the
handle is left with `deny_write_cnt = 2` above `open_cnt = 1`. -/
theorem deny_write_cnt_above_open_cnt :
    ∃ st ino, guard_run (inode_init (fresh_state fresh_fs)) deny_then_close_calls = some st ∧
      st.deref 0 = some ino ∧ ino.open_cnt = 1 ∧ ino.deny_write_cnt = 2 ∧
      ¬ ino.deny_write_cnt ≤ ino.open_cnt := by
  refine ⟨_, _, rfl, rfl, ?_⟩
  decide

/-- C11 (amended): in every state reached from `inode_init` by `inode_open`,
`inode_reopen`, `inode_close`, `inode_deny_write` and `inode_allow_write`
calls whose assertions pass and in which every `inode_close` finds
`deny_write_cnt < open_cnt` on the handle it closes, every handle on the list
has `0 <= deny_write_cnt <= open_cnt`. -/
theorem deny_write_cnt_bounds (st0 st : State) (cs : List GuardCall)
    (hrel : guard_released (inode_init st0) cs)
    (hrun : guard_run (inode_init st0) cs = some st) (p : Nat) (ino : inode)
    (hd : st.deref p = some ino) :
    0 ≤ ino.deny_write_cnt ∧ ino.deny_write_cnt ≤ ino.open_cnt :=
  guarded_run cs (inode_init st0) st (by simp [guarded, inode_init]) hrel hrun _
    (deref_mem st p ino hd)

/-- The calls of `deny_allow_close_calls` follow the protocol. -/
theorem deny_allow_close_released :
    guard_released (inode_init (fresh_state fresh_fs)) deny_allow_close_calls := by
  refine ⟨trivial, trivial, trivial, trivial, ?_, trivial⟩
  show (0 : Int) < 2
  decide

/-- Witness of C11 (amended): after `deny_allow_close_calls` the handle of
sector 2 has `deny_write_cnt = 0` and `open_cnt = 1`. -/
theorem deny_write_cnt_bounds_witness :
    guard_released (inode_init (fresh_state fresh_fs)) deny_allow_close_calls ∧
    ∃ st ino, guard_run (inode_init (fresh_state fresh_fs)) deny_allow_close_calls = some st ∧
      st.deref 0 = some ino ∧ ino.open_cnt = 1 ∧
      0 ≤ ino.deny_write_cnt ∧ ino.deny_write_cnt ≤ ino.open_cnt :=
  ⟨deny_allow_close_released, _, _, rfl, rfl, by decide,
    deny_write_cnt_bounds (fresh_state fresh_fs) _ deny_allow_close_calls
      deny_allow_close_released rfl 0 _ rfl⟩

/-- One iteration of the loop of `inode_read_at`. -/
theorem inode_read_loop_succ (fs : FS) (ino : inode) (malloc_ok : Bool) (fuel : Nat)
    (buffer : Nat → Nat) (size offset bytes_read : Int) :
    inode_read_loop fs ino malloc_ok (fuel + 1) buffer size offset bytes_read =
      if size > 0 then
        if chunk_size ino size offset ≤ 0 then some (bytes_read, buffer)
        else if offset.tmod DISK_SECTOR_SIZE = 0 ∧ chunk_size ino size offset = DISK_SECTOR_SIZE
        then
          inode_read_loop fs ino malloc_ok fuel
            (memcpy buffer bytes_read.toNat (disk_read fs.filesys_disk (sector_idx fs ino offset))
              0 DISK_SECTOR_SIZE.toNat)
            (size - chunk_size ino size offset) (offset + chunk_size ino size offset)
            (bytes_read + chunk_size ino size offset)
        else if malloc_ok = false then some (bytes_read, buffer)
        else
          inode_read_loop fs ino malloc_ok fuel
            (memcpy buffer bytes_read.toNat (disk_read fs.filesys_disk (sector_idx fs ino offset))
              (offset.tmod DISK_SECTOR_SIZE).toNat (chunk_size ino size offset).toNat)
            (size - chunk_size ino size offset) (offset + chunk_size ino size offset)
            (bytes_read + chunk_size ino size offset)
      else some (bytes_read, buffer) := by
  rw [inode_read_loop]
  rfl

/-- The chunk of an iteration that starts at an offset that is not negative:
the least of the size, the bytes left in the inode and the bytes left in the
sector. -/
theorem chunk_size_eq (ino : inode) (size offset : Int) (ho : 0 ≤ offset) :
    chunk_size ino size offset =
      min size (min ((if ino.data.is_dir = false then inode_length ino else 512) - offset)
        (512 - offset % 512)) := by
  have hm : offset.tmod 512 = offset % 512 := Int.tmod_eq_emod ho (by norm_num)
  simp only [chunk_size, DISK_SECTOR_SIZE, hm]
  split_ifs <;> omega

/-- The loop of `inode_read_at` returns when the fuel exceeds the size; the
count it returns lies between the bytes already read and these plus the
size, and when the bounce buffer can be allocated it is the bytes already
read plus the least of the size and the bytes left in the inode. -/
theorem inode_read_loop_count (fs : FS) (ino : inode) (malloc_ok : Bool) (fuel : Nat)
    (buffer : Nat → Nat) (size offset bytes_read : Int) (hs : 0 ≤ size) (ho : 0 ≤ offset)
    (hf : size.toNat < fuel) :
    ∃ n buf, inode_read_loop fs ino malloc_ok fuel buffer size offset bytes_read = some (n, buf) ∧
      bytes_read ≤ n ∧ n ≤ bytes_read + size ∧
      (malloc_ok = true →
        n = bytes_read +
          min size (max 0 ((if ino.data.is_dir = false then inode_length ino else 512) - offset)))
    := by
  induction fuel generalizing buffer size offset bytes_read with
  | zero => omega
  | succ fuel ih =>
    rw [inode_read_loop_succ]
    have hc := chunk_size_eq ino size offset ho
    by_cases hsz : size > 0
    · simp only [hsz, if_true]
      by_cases hle : chunk_size ino size offset ≤ 0
      · simp only [hle, if_true]
        exact ⟨_, _, rfl, by omega, by omega, fun _ => by omega⟩
      · simp only [hle, if_false]
        have hstep : ∀ buf1, ∃ n buf,
            inode_read_loop fs ino malloc_ok fuel buf1 (size - chunk_size ino size offset)
              (offset + chunk_size ino size offset) (bytes_read + chunk_size ino size offset) =
              some (n, buf) ∧
            bytes_read ≤ n ∧ n ≤ bytes_read + size ∧
            (malloc_ok = true →
              n = bytes_read + min size (max 0
                ((if ino.data.is_dir = false then inode_length ino else 512) - offset))) := by
          intro buf1
          obtain ⟨n, buf, h1, h2, h3, h4⟩ := ih buf1 (size - chunk_size ino size offset)
            (offset + chunk_size ino size offset) (bytes_read + chunk_size ino size offset)
            (by omega) (by omega) (by omega)
          exact ⟨n, buf, h1, by omega, by omega, fun hm => by have := h4 hm; omega⟩
        by_cases h1 : offset.tmod DISK_SECTOR_SIZE = 0 ∧
            chunk_size ino size offset = DISK_SECTOR_SIZE
        · rw [if_pos h1]
          exact hstep _
        · rw [if_neg h1]
          cases malloc_ok with
          | false =>
            rw [if_pos rfl]
            exact ⟨_, _, rfl, by omega, by omega, fun hm => absurd hm (by decide)⟩
          | true =>
            rw [if_neg (by decide)]
            exact hstep _
    · simp only [hsz, if_false]
      exact ⟨_, _, rfl, by omega, by omega, fun _ => by omega⟩

/-- C14: for every handle, size and offset that are not negative,
`inode_read_at` returns once the fuel exceeds the size; when the bounce
buffer can be allocated the count is exactly `min (size, max (0, length -
offset))` for a regular file and `min (size, max (0, 512 - offset))` for a
directory, and in every case the count lies between 0 and the size.  The
file system (disk and FAT) and the handle are arguments of `inode_read_at`
and not among its results: the function assigns to none of them. -/
theorem inode_read_at_count (fuel : Nat) (fs : FS) (ino : inode) (buffer : Nat → Nat)
    (size offset : Int) (hs : 0 ≤ size) (ho : 0 ≤ offset) (hf : size.toNat < fuel) :
    (ino.data.is_dir = false →
      ∃ buf, inode_read_at fuel fs ino buffer size offset true =
        some (min size (max 0 (inode_length ino - offset)), buf)) ∧
    (ino.data.is_dir = true →
      ∃ buf, inode_read_at fuel fs ino buffer size offset true =
        some (min size (max 0 (DISK_SECTOR_SIZE - offset)), buf)) ∧
    (∀ malloc_ok, ∃ n buf,
      inode_read_at fuel fs ino buffer size offset malloc_ok = some (n, buf) ∧
        0 ≤ n ∧ n ≤ size) := by
  refine ⟨fun hd => ?_, fun hd => ?_, fun malloc_ok => ?_⟩
  · obtain ⟨n, buf, h1, _, _, h4⟩ :=
      inode_read_loop_count fs ino true fuel buffer size offset 0 hs ho hf
    refine ⟨buf, ?_⟩
    rw [inode_read_at, h1, h4 rfl]
    simp [hd]
  · obtain ⟨n, buf, h1, _, _, h4⟩ :=
      inode_read_loop_count fs ino true fuel buffer size offset 0 hs ho hf
    refine ⟨buf, ?_⟩
    rw [inode_read_at, h1, h4 rfl]
    simp [hd, DISK_SECTOR_SIZE]
  · obtain ⟨n, buf, h1, h2, h3, _⟩ :=
      inode_read_loop_count fs ino malloc_ok fuel buffer size offset 0 hs ho hf
    exact ⟨n, buf, h1, h2, by omega⟩

/-- Witness of C14: a read of 100 bytes at offset 500 of a regular file of
512 bytes returns 12. -/
theorem inode_read_at_count_witness :
    (0 : Int) ≤ 100 ∧ (0 : Int) ≤ 500 ∧ (100 : Int).toNat < 101 ∧
    min (100 : Int) (max 0 (inode_length denied_inode - 500)) = 12 ∧
    ∃ buf, inode_read_at 101 fresh_fs denied_inode zeros 100 500 true =
      some (min 100 (max 0 (inode_length denied_inode - 500)), buf) :=
  ⟨by decide, by decide, by decide, by decide,
    (inode_read_at_count 101 fresh_fs denied_inode zeros 100 500 (by decide) (by decide)
      (by decide)).1 rfl⟩

/-- Within one chunk of a regular file the resolver gives the sector of the
chunk's first byte. -/
theorem byte_to_sector_chunk (fs : FS) (ino : inode) (offset j : Int) (ho : 0 ≤ offset)
    (hj : 0 ≤ j) (hl : offset + j < ino.data.length) (hs : j < 512 - offset % 512) :
    byte_to_sector fs ino (offset + j) = byte_to_sector fs ino offset := by
  have h1 : (offset + j).tdiv 512 = offset.tdiv 512 := by
    rw [Int.tdiv_eq_ediv (by omega) (by norm_num), Int.tdiv_eq_ediv ho (by norm_num)]
    omega
  have h2 : offset < ino.data.length := by omega
  simp only [byte_to_sector, hl, h2, if_true, DISK_SECTOR_SIZE, SECTORS_PER_CLUSTER, mul_one, h1]

/-- The loop of `inode_read_at` on a regular file: the bytes of the buffer
below `bytes_read` are kept, and every byte from `bytes_read` up to the count
returned is the byte the byte-by-byte read gives for its position. -/
theorem inode_read_loop_bytes (fs : FS) (ino : inode) (malloc_ok : Bool) (fuel : Nat)
    (buffer buf : Nat → Nat) (size offset bytes_read n : Int) (hfile : ino.data.is_dir = false)
    (ho : 0 ≤ offset) (hb : 0 ≤ bytes_read)
    (h : inode_read_loop fs ino malloc_ok fuel buffer size offset bytes_read = some (n, buf)) :
    bytes_read ≤ n ∧ (∀ idx : Nat, (idx : Int) < bytes_read → buf idx = buffer idx) ∧
      (∀ idx : Nat, bytes_read ≤ idx → (idx : Int) < n →
        buf idx = read_byte fs ino (offset - bytes_read) idx) := by
  induction fuel generalizing buffer size offset bytes_read with
  | zero => simp [inode_read_loop] at h
  | succ fuel ih =>
    rw [inode_read_loop_succ] at h
    have hc := chunk_size_eq ino size offset ho
    simp only [hfile, if_true, inode_length] at hc
    have hdone : some (bytes_read, buffer) = some (n, buf) →
        bytes_read ≤ n ∧ (∀ idx : Nat, (idx : Int) < bytes_read → buf idx = buffer idx) ∧
          (∀ idx : Nat, bytes_read ≤ idx → (idx : Int) < n →
            buf idx = read_byte fs ino (offset - bytes_read) idx) := by
      intro h0
      simp only [Option.some.injEq, Prod.mk.injEq] at h0
      obtain ⟨h1, h2⟩ := h0
      subst h1 h2
      exact ⟨le_refl _, fun _ _ => rfl, fun idx h1 h2 => by omega⟩
    by_cases hsz : size > 0
    · simp only [hsz, if_true] at h
      by_cases hle : chunk_size ino size offset ≤ 0
      · simp only [hle, if_true] at h
        exact hdone h
      · simp only [hle, if_false] at h
        have hstep : inode_read_loop fs ino malloc_ok fuel
            (memcpy buffer bytes_read.toNat
              (disk_read fs.filesys_disk (byte_to_sector fs ino offset))
              (offset % 512).toNat (chunk_size ino size offset).toNat)
            (size - chunk_size ino size offset) (offset + chunk_size ino size offset)
            (bytes_read + chunk_size ino size offset) = some (n, buf) →
            bytes_read ≤ n ∧ (∀ idx : Nat, (idx : Int) < bytes_read → buf idx = buffer idx) ∧
              (∀ idx : Nat, bytes_read ≤ idx → (idx : Int) < n →
                buf idx = read_byte fs ino (offset - bytes_read) idx) := by
          intro hrec
          obtain ⟨g1, g2, g3⟩ := ih _ _ _ _ (by omega) (by omega) hrec
          refine ⟨by omega, ?_, ?_⟩
          · intro idx hidx
            rw [g2 idx (by omega)]
            have : ¬ (bytes_read.toNat ≤ idx ∧
                idx < bytes_read.toNat + (chunk_size ino size offset).toNat) := by omega
            simp only [memcpy, this, if_false]
          · intro idx h1 h2
            by_cases hin : (idx : Int) < bytes_read + chunk_size ino size offset
            · rw [g2 idx hin]
              have hr : bytes_read.toNat ≤ idx ∧
                  idx < bytes_read.toNat + (chunk_size ino size offset).toNat := by omega
              simp only [memcpy, hr, and_self, if_true, read_byte, DISK_SECTOR_SIZE, disk_read]
              have e1 : offset - bytes_read + (idx : Int) = offset + ((idx : Int) - bytes_read) := by
                omega
              rw [e1, byte_to_sector_chunk fs ino offset _ ho (by omega) (by omega) (by omega)]
              congr 1
              omega
            · have := g3 idx (by omega) h2
              rw [this]
              congr 1
              omega
        by_cases h1 : offset.tmod DISK_SECTOR_SIZE = 0 ∧
            chunk_size ino size offset = DISK_SECTOR_SIZE
        · rw [if_pos h1] at h
          have hm : offset.tmod 512 = offset % 512 := Int.tmod_eq_emod ho (by norm_num)
          obtain ⟨h1a, h1b⟩ := h1
          simp only [DISK_SECTOR_SIZE] at h1a h1b
          rw [hm] at h1a
          apply hstep
          rw [h1a, h1b]
          simpa only [sector_idx, hfile, if_true, DISK_SECTOR_SIZE, h1b] using h
        · rw [if_neg h1] at h
          cases malloc_ok with
          | false =>
            rw [if_pos rfl] at h
            exact hdone h
          | true =>
            rw [if_neg (by decide)] at h
            have hm : offset.tmod 512 = offset % 512 := Int.tmod_eq_emod ho (by norm_num)
            apply hstep
            simpa only [sector_idx, hfile, if_true, DISK_SECTOR_SIZE, hm] using h
    · simp only [hsz, if_false] at h
      exact hdone h

/-- C20: for every regular-file handle, size and offset that is not negative,
if `inode_read_at` returns `n` then every byte `i < n` placed in the caller's
buffer is the byte given by the byte-by-byte read through the resolver
(`read_byte`), whether the chunks went the direct full-sector way or through
the bounce buffer; and `inode_read_at` does return once the fuel exceeds a
size that is not negative. -/
theorem inode_read_at_bytes (fuel : Nat) (fs : FS) (ino : inode) (buffer : Nat → Nat)
    (size offset : Int) (malloc_ok : Bool) (hfile : ino.data.is_dir = false) (ho : 0 ≤ offset) :
    (∀ n buf, inode_read_at fuel fs ino buffer size offset malloc_ok = some (n, buf) →
      ∀ i : Nat, (i : Int) < n → buf i = read_byte fs ino offset i) ∧
    (0 ≤ size → size.toNat < fuel →
      ∃ n buf, inode_read_at fuel fs ino buffer size offset malloc_ok = some (n, buf)) := by
  constructor
  · intro n buf h i hi
    have := (inode_read_loop_bytes fs ino malloc_ok fuel buffer buf size offset 0 n hfile ho
      (le_refl 0) h).2.2 i (by omega) hi
    simpa using this
  · intro hs hf
    obtain ⟨n, buf, h, _⟩ :=
      inode_read_loop_count fs ino malloc_ok fuel buffer size offset 0 hs ho hf
    exact ⟨n, buf, h⟩

/-- Witness of C20: a read of 100 bytes at offset 500 of a regular file of
512 bytes returns 12 bytes, each the byte the byte-by-byte read gives. -/
theorem inode_read_at_bytes_witness :
    denied_inode.data.is_dir = false ∧ (0 : Int) ≤ 500 ∧
    ∃ n buf, inode_read_at 101 fresh_fs denied_inode zeros 100 500 true = some (n, buf) ∧
      n = 12 ∧ ∀ i : Nat, (i : Int) < n → buf i = read_byte fresh_fs denied_inode 500 i :=
  ⟨rfl, by decide, _, _, rfl, rfl,
    (inode_read_at_bytes 101 fresh_fs denied_inode zeros 100 500 true rfl (by decide)).1 _ _ rfl⟩

/-- One iteration of the loop of `inode_write_at`. -/
theorem inode_write_loop_succ (dev : null_write) (buffer : Nat → Nat) (malloc_ok : Bool)
    (fuel : Nat) (fs : FS) (ino : inode) (size offset bytes_written : Int) :
    inode_write_loop dev buffer malloc_ok (fuel + 1) fs ino size offset bytes_written =
      if size > 0 then
        if chunk_size ino size offset ≤ 0 then
          if size_t_sub (bytes_to_sectors (to_int32 (offset + size)))
              (bytes_to_sectors (inode_length ino)) > 0
          then
            match inode_write_grow dev ino.data.last
              (size_t_sub (bytes_to_sectors (to_int32 (offset + size)))
                (bytes_to_sectors (inode_length ino))) fs 0 with
            | none => none
            | some g =>
              inode_write_loop dev buffer malloc_ok fuel g.2
                { ino with
                  data := { ino.data with length := to_int32 (offset + size), last := g.1 } }
                size offset bytes_written
          else
            inode_write_loop dev buffer malloc_ok fuel fs
              { ino with data := { ino.data with length := to_int32 (offset + size) } }
              size offset bytes_written
        else if offset.tmod DISK_SECTOR_SIZE = 0 ∧ chunk_size ino size offset = DISK_SECTOR_SIZE
        then
          inode_write_loop dev buffer malloc_ok fuel
            { fs with
              filesys_disk :=
                disk_write fs.filesys_disk (sector_idx fs ino offset)
                  (fun j => buffer (bytes_written.toNat + j)) }
            ino (size - chunk_size ino size offset) (offset + chunk_size ino size offset)
            (bytes_written + chunk_size ino size offset)
        else if malloc_ok = false then some (bytes_written, fs, ino)
        else
          inode_write_loop dev buffer malloc_ok fuel
            { fs with
              filesys_disk :=
                disk_write fs.filesys_disk (sector_idx fs ino offset)
                  (memcpy
                    (if offset.tmod DISK_SECTOR_SIZE > 0 ∨
                        chunk_size ino size offset <
                          DISK_SECTOR_SIZE - offset.tmod DISK_SECTOR_SIZE then
                      disk_read fs.filesys_disk (sector_idx fs ino offset)
                    else zeros)
                    (offset.tmod DISK_SECTOR_SIZE).toNat buffer bytes_written.toNat
                    (chunk_size ino size offset).toNat) }
            ino (size - chunk_size ino size offset) (offset + chunk_size ino size offset)
            (bytes_written + chunk_size ino size offset)
      else some (bytes_written, fs, ino) := by
  rw [inode_write_loop]
  rfl

/-- On a device that takes a null buffer for a sector of zeros the growth
loop of `inode_write_at` returns, whatever the number of clusters to add. -/
theorem inode_write_grow_zero_filled (last n : Nat) (fs : FS) (clst : Nat) :
    ∃ g, inode_write_grow .zero_filled last n fs clst = some g := by
  induction n generalizing fs clst with
  | zero => exact ⟨_, rfl⟩
  | succ n ih =>
    rw [inode_write_grow]
    exact ih _ _

/-- On a device that does not return from a write with a null buffer the
growth loop of `inode_write_at` does not return when it has a cluster to
add. -/
theorem inode_write_grow_no_return (last n : Nat) (fs : FS) (clst : Nat) :
    inode_write_grow .no_return last (n + 1) fs clst = none := by
  rw [inode_write_grow]
  rfl

/-- A write that stays within the length of a regular file returns the size
once the fuel exceeds it, changes the disk only, and leaves the allocator
state and the inode as they were, whatever the device does with a null
buffer. -/
theorem inode_write_loop_within (dev : null_write) (buffer : Nat → Nat) (fuel : Nat) (fs : FS)
    (ino : inode) (size offset bytes_written : Int) (hfile : ino.data.is_dir = false)
    (ho : 0 ≤ offset) (hs : 0 ≤ size) (hin : offset + size ≤ ino.data.length)
    (hf : size.toNat < fuel) :
    ∃ d, inode_write_loop dev buffer true fuel fs ino size offset bytes_written =
      some (bytes_written + size, { fat := fs.fat, filesys_disk := d }, ino) := by
  induction fuel generalizing fs size offset bytes_written with
  | zero => omega
  | succ fuel ih =>
    rw [inode_write_loop_succ]
    have hc := chunk_size_eq ino size offset ho
    simp only [hfile, if_true, inode_length] at hc
    by_cases hsz : size > 0
    · have hpos : ¬ chunk_size ino size offset ≤ 0 := by omega
      simp only [hsz, hpos, if_true, if_false]
      have hstep : ∀ d1, ∃ d,
          inode_write_loop dev buffer true fuel { fat := fs.fat, filesys_disk := d1 } ino
            (size - chunk_size ino size offset) (offset + chunk_size ino size offset)
            (bytes_written + chunk_size ino size offset) =
          some (bytes_written + size, { fat := fs.fat, filesys_disk := d }, ino) := by
        intro d1
        obtain ⟨d, hd⟩ := ih { fat := fs.fat, filesys_disk := d1 }
          (size - chunk_size ino size offset) (offset + chunk_size ino size offset)
          (bytes_written + chunk_size ino size offset) (by omega) (by omega) (by omega)
          (by omega)
        refine ⟨d, ?_⟩
        rw [hd]
        congr 2
        omega
      by_cases h1 : offset.tmod DISK_SECTOR_SIZE = 0 ∧
          chunk_size ino size offset = DISK_SECTOR_SIZE
      · rw [if_pos h1]
        exact hstep _
      · rw [if_neg h1, if_neg (by decide)]
        exact hstep _
    · have h0 : size = 0 := by omega
      simp only [hsz, if_false]
      exact ⟨fs.filesys_disk, by rw [h0, add_zero]⟩

/-- The loop of `inode_write_at` on a regular file, started with a positive
size at an offset that is not negative, with `offset + size` within `off_t`,
when the device takes a null buffer for a sector of zeros or the write adds
no cluster: the loop returns the bytes already written plus the size once the
fuel exceeds the size by more than one; the cached length becomes the greater
of the old length and `offset + size`, and when the range lies within the old
length the inode and the allocator state are unchanged. -/
theorem inode_write_loop_size (dev : null_write) (buffer : Nat → Nat) (fuel : Nat) (fs : FS)
    (ino : inode) (size offset bytes_written : Int) (hfile : ino.data.is_dir = false)
    (ho : 0 ≤ offset) (hs : 0 < size) (hb : offset + size < 2147483648)
    (hdev : dev = .zero_filled ∨
      (ino.data.length < offset + size →
        bytes_to_sectors (offset + size) = bytes_to_sectors ino.data.length))
    (hf : size.toNat + 1 < fuel) :
    ∃ fs1 ino1, inode_write_loop dev buffer true fuel fs ino size offset bytes_written =
        some (bytes_written + size, fs1, ino1) ∧
      ino1.data.length = max ino.data.length (offset + size) ∧
      (offset + size ≤ ino.data.length → ino1 = ino ∧ fs1.fat = fs.fat) := by
  induction fuel generalizing fs size offset bytes_written with
  | zero => omega
  | succ fuel ih =>
    by_cases hin : offset + size ≤ ino.data.length
    · obtain ⟨d, hd⟩ := inode_write_loop_within dev buffer (fuel + 1) fs ino size offset
        bytes_written hfile ho (by omega) hin (by omega)
      exact ⟨_, _, hd, by omega, fun _ => ⟨rfl, rfl⟩⟩
    · rw [inode_write_loop_succ]
      have hc := chunk_size_eq ino size offset ho
      simp only [hfile, if_true, inode_length] at hc
      have hsz : size > 0 := hs
      simp only [hsz, if_true]
      by_cases hle : chunk_size ino size offset ≤ 0
      · simp only [hle, if_true]
        have hw : to_int32 (offset + size) = offset + size := by
          unfold to_int32
          omega
        rw [hw]
        have hgrow : ∀ fs2 l2, ∃ fs1 ino1,
            inode_write_loop dev buffer true fuel fs2
              { ino with data := { ino.data with length := offset + size, last := l2 } }
              size offset bytes_written = some (bytes_written + size, fs1, ino1) ∧
            ino1.data.length = max ino.data.length (offset + size) ∧
            (offset + size ≤ ino.data.length → ino1 = ino ∧ fs1.fat = fs.fat) := by
          intro fs2 l2
          obtain ⟨d, hd⟩ := inode_write_loop_within dev buffer fuel fs2
            { ino with data := { ino.data with length := offset + size, last := l2 } }
            size offset bytes_written hfile ho (by omega) (le_refl _) (by omega)
          exact ⟨_, _, hd, by simp only; omega, fun h => absurd h hin⟩
        by_cases hadd : size_t_sub (bytes_to_sectors (offset + size))
            (bytes_to_sectors (inode_length ino)) > 0
        · rw [if_pos hadd]
          rcases hdev with hz | hnc
          · subst hz
            obtain ⟨g, hg⟩ := inode_write_grow_zero_filled ino.data.last
              (size_t_sub (bytes_to_sectors (offset + size))
                (bytes_to_sectors (inode_length ino))) fs 0
            rw [hg]
            exact hgrow _ _
          · exfalso
            have he := hnc (by omega)
            simp only [inode_length, he, size_t_sub] at hadd
            omega
        · rw [if_neg hadd]
          exact hgrow fs ino.data.last
      · simp only [hle, if_false]
        have he : offset + chunk_size ino size offset + (size - chunk_size ino size offset) =
            offset + size := by omega
        have hstep : ∀ d1, ∃ fs1 ino1,
            inode_write_loop dev buffer true fuel { fat := fs.fat, filesys_disk := d1 } ino
              (size - chunk_size ino size offset) (offset + chunk_size ino size offset)
              (bytes_written + chunk_size ino size offset) =
              some (bytes_written + size, fs1, ino1) ∧
            ino1.data.length = max ino.data.length (offset + size) ∧
            (offset + size ≤ ino.data.length → ino1 = ino ∧ fs1.fat = fs.fat) := by
          intro d1
          obtain ⟨fs1, ino1, h1, h2, _⟩ := ih { fat := fs.fat, filesys_disk := d1 }
            (size - chunk_size ino size offset) (offset + chunk_size ino size offset)
            (bytes_written + chunk_size ino size offset) (by omega) (by omega) (by omega)
            (by rw [he]; exact hdev) (by omega)
          refine ⟨fs1, ino1, ?_, by omega, fun h => absurd h hin⟩
          rw [h1]
          congr 2
          omega
        by_cases h1 : offset.tmod DISK_SECTOR_SIZE = 0 ∧
            chunk_size ino size offset = DISK_SECTOR_SIZE
        · rw [if_pos h1]
          exact hstep _
        · rw [if_neg h1, if_neg (by decide)]
          exact hstep _

/-- The part of the contract of `inode_write_at` that the code keeps: for
every regular-file handle with `deny_write_cnt = 0`, every offset that is not
negative and every positive size with `offset + size` within `off_t`, when the
bounce buffer can be allocated and either the device takes a null buffer for a
sector of zeros or the write adds no cluster, `inode_write_at` returns once
the fuel exceeds the size by more than one, it returns exactly the size, and
it leaves the cached length equal to `max (old length, offset + size)`; when
`offset + size` does not exceed the old length the inode (its length and last
cluster included) and the allocator state are unchanged.  This holds whether
or not `fat_create_chain` finds free clusters. -/
theorem inode_write_at_size (dev : null_write) (fuel : Nat) (fs : FS) (ino : inode)
    (buffer : Nat → Nat) (size offset : Int) (hfile : ino.data.is_dir = false)
    (hdeny : ino.deny_write_cnt = 0) (ho : 0 ≤ offset) (hs : 0 < size)
    (hb : offset + size < 2147483648)
    (hdev : dev = .zero_filled ∨
      (ino.data.length < offset + size →
        bytes_to_sectors (offset + size) = bytes_to_sectors ino.data.length))
    (hf : size.toNat + 1 < fuel) :
    ∃ fs1 ino1,
      inode_write_at dev fuel fs ino buffer size offset true = some (size, fs1, ino1) ∧
      ino1.data.length = max ino.data.length (offset + size) ∧
      (offset + size ≤ ino.data.length → ino1 = ino ∧ fs1.fat = fs.fat) := by
  obtain ⟨fs1, ino1, h1, h2, h3⟩ :=
    inode_write_loop_size dev buffer fuel fs ino size offset 0 hfile ho hs hb hdev hf
  refine ⟨fs1, ino1, ?_, h2, h3⟩
  rw [inode_write_at, h1]
  simp [hdeny]

/-- An instance of `inode_write_at_size` on a device that does not return from
a write with a null buffer: 10 bytes are written at offset 1000 of an open
file of 1000 bytes, which grows the file within its last cluster; the write
returns 10 and the length becomes 1010. -/
theorem inode_write_at_size_tail_sector :
    ∃ fs1 ino1,
      inode_write_at .no_return 13 file_fs tail_inode pattern 10 1000 true =
          some (10, fs1, ino1) ∧
        ino1.data.length = 1010 :=
  (inode_write_at_size .no_return 13 file_fs tail_inode pattern 10 1000
      rfl rfl (by decide) (by decide) (by decide) (Or.inr (fun _ => by decide))
      (by decide)).imp
    fun _ h => h.imp fun _ h1 => ⟨h1.1, h1.2.1.trans (by decide)⟩

/-- C19 (code at the failing input): a regular file of 1024 bytes (chain
3 → 4, `last = 4`) is created and opened; the handle is a regular-file handle
with `deny_write_cnt = 0`, and one byte is written at offset 1024, with no
allocation failing.  The write needs one more cluster: the growth step
allocates cluster 5 and calls `disk_write` for its sector with the null
pointer as buffer.  On a device that does not return from such a write the
growth loop, and with it `inode_write_at`, has no result, whatever the fuel:
the write does not return 1.  Only on a device that takes the null buffer for
a sector of zeros does the write return 1, with length 1025 and last cluster
5.  Besides, the length the growth step stores is the 32-bit sum
`offset + size`: at offset 2147483647 and size 1 it is -2147483648. -/
theorem inode_write_at_growth_null_buffer :
    (create_open fresh_fs 2 1024).map
        (fun o =>
          ((o.1.bind o.2.deref).map (fun ino => (ino.data.is_dir, ino.deny_write_cnt,
              ino.data.length, ino.data.last)), o.2.fs.fat.created)) =
      some (some (false, 0, 1024, 4), [4, 3]) ∧
    size_t_sub (bytes_to_sectors (to_int32 (1024 + 1))) (bytes_to_sectors 1024) = 1 ∧
    (fat_create_chain file_fs.fat 4).1 = 5 ∧
    inode_write_grow .no_return 4 1 file_fs 0 = none ∧
    (∀ fuel, create_open_write .no_return fuel fresh_fs 2 1024 pattern 1 1024 = none) ∧
    (create_open_write .zero_filled 10 fresh_fs 2 1024 pattern 1 1024).map
        (fun r =>
          (r.1, (r.2.2.deref r.2.1).map (fun ino => (ino.data.last, ino.data.length)),
            r.2.2.fs.fat.created)) =
      some (1, some (5, 1025), [5, 4, 3]) ∧
    to_int32 (2147483647 + 1) = -2147483648 := by
  exact ⟨by decide, by decide, by decide, rfl, fun fuel => by cases fuel <;> rfl,
    by decide, by decide⟩

end Haos
